import Mathlib

/-!
Verification of the `Parallel` bounded worker-pool task executor and the
`locker` decorator from `src/dbmp/utils.py` (the copy in `src/utils.py` is
line-for-line identical for the `Parallel` class, so one embedding covers
both).

The Python code targets Python 2 (`xrange`, `unicode`): we embed its
Python-2 semantics.  Machine concurrency is modelled as a small-step
interleaving transition system: one supervisor (the thread executing
`run_threads`) and `max_workers` worker threads (each executing
`_wrapped`), with the shared state (`self.queue`, `self.exceptions`,
`self.keep_running`, `queue.unfinished_tasks`) carried explicitly.
Ghost fields (`execLog`, `recLog`, `popped`) record, without influencing
any transition, which tasks were executed, which failures were recorded,
and which recorded failures the supervisor consumed.
-/

namespace DbmpUtils

/-- The identity of a Python exception: its kind (class name) and message.
`sys.exc_info()` additionally captures a traceback; the claims only speak
of kind and message. -/
structure Err where
  kind : String
  msg : String
deriving DecidableEq, Repr

/-- `ValueError` raised by the string check in the enqueue loop of
`run_threads` (`"args_list must be list of lists not list of strings"`). -/
def strErr : Err :=
  ⟨"ValueError", "args_list must be list of lists not list of strings"⟩

/-- `ValueError` raised by the length check in `run_threads` (the real
message interpolates the three lists; the static text is kept). -/
def lenErr : Err :=
  ⟨"ValueError",
   "List of functions passed into a Parallel object must be longer or equal in length to the list of args and/or kwargs passed to the object."⟩

/-- `TypeError` raised when the `zip_longest` fill value `{}` ends up in the
function position and is called (`{}` is not callable). -/
def typeErr : Err := ⟨"TypeError", "object is not callable"⟩

/-- A keyword-argument mapping (values abstracted to `Nat`). -/
abbrev Kw := List (String × Nat)

/-- A task callable: an identifier plus its behaviour, which given the
positional and keyword arguments either returns normally (`none`) or
raises an exception (`some e`).  Return values are irrelevant to
`Parallel` (the worker discards them), so only the raise/return outcome
is modelled. -/
structure Func where
  fid : Nat
  run : List Nat → Kw → Option Err

/-- An entry of `args_list` as supplied by the caller: either a bare
string (the user error flagged by `run_threads`) or a proper sequence of
positional arguments (values abstracted to `Nat`). -/
inductive ArgsEntry where
  | aStr (st : String)
  | aSeq (xs : List Nat)

/-- The positional-arguments slot of an enqueued task descriptor: a bare
string, a proper sequence, or the `zip_longest` fill value `{}`. -/
inductive ArgsCell where
  | cellStr (st : String)
  | cellSeq (xs : List Nat)
  | cellFill

/-- The function slot of a task descriptor produced by `zip_longest`:
either a real callable from `funcs`, or the fill value `{}` when `funcs`
is shorter than `args_list`/`kwargs_list`. -/
inductive FuncSlot where
  | callable (f : Func)
  | fillDict

/-- A task descriptor: the triple `(func, args, kwargs)` that
`run_threads` puts on `self.queue`. -/
structure TaskD where
  slot : FuncSlot
  args : ArgsCell
  kwargs : Kw

/-- View of `args_list[i]` through the `zip_longest` iteration: a missing
entry becomes the fill value `{}`. -/
def toCell : Option ArgsEntry → ArgsCell
  | none => .cellFill
  | some (.aStr st) => .cellStr st
  | some (.aSeq xs) => .cellSeq xs

/-- View of `funcs[i]` through the `zip_longest` iteration. -/
def toSlot : Option Func → FuncSlot
  | none => .fillDict
  | some f => .callable f

/-- View of `kwargs_list[i]` through the `zip_longest` iteration: the fill
value `{}` is the empty mapping. -/
def toKw : Option Kw → Kw
  | none => []
  | some k => k

/-- Number of rows `zip_longest(funcs, args_list, kwargs_list)` yields. -/
def nRows (fs : List Func) (al : List ArgsEntry) (kl : List Kw) : Nat :=
  max fs.length (max al.length kl.length)

/-- Row `i` of `zip_longest(funcs, args_list, kwargs_list, fillvalue={})`. -/
def rowAt (fs : List Func) (al : List ArgsEntry) (kl : List Kw) (i : Nat) :
    TaskD :=
  ⟨toSlot fs[i]?, toCell al[i]?, toKw kl[i]?⟩

/-- All rows of the `zip_longest` iteration, in order. -/
def rows (fs : List Func) (al : List ArgsEntry) (kl : List Kw) : List TaskD :=
  (List.range (nRows fs al kl)).map (rowAt fs al kl)

/-- Whether an args slot is a bare string, i.e. trips
`isinstance(args, str) or isinstance(args, unicode)`. -/
def isStrCell : ArgsCell → Bool
  | .cellStr _ => true
  | _ => false

/-- The enqueue loop of `run_threads`: walk the rows in order; on the
first row whose args slot is a bare string, stop and report the
`ValueError` (that row and all later rows are not enqueued); otherwise
enqueue every row.  Returns the enqueued prefix together with the raised
error, if any. -/
def enqueueRows : List TaskD → List TaskD × Option Err
  | [] => ([], none)
  | td :: rest =>
    if isStrCell td.args then ([], some strErr)
    else
      let r := enqueueRows rest
      (td :: r.1, r.2)

/-- Building `self.queue`: the enqueue loop applied to the `zip_longest`
rows. -/
def buildQueue (fs : List Func) (al : List ArgsEntry) (kl : List Kw) :
    List TaskD × Option Err :=
  enqueueRows (rows fs al kl)

/-- Unpacking the args slot as `func(*args, ...)` does: a sequence yields
its elements, the fill value `{}` yields no positional arguments, and a
string (never actually enqueued) iterates character by character. -/
def unpackArgs : ArgsCell → List Nat
  | .cellStr st => st.toList.map Char.toNat
  | .cellSeq xs => xs
  | .cellFill => []

/-- Executing a dequeued task descriptor, `func(*args, **kwargs)`:
calling the non-callable fill value `{}` raises `TypeError`; a real
callable runs with the unpacked positional arguments and the keyword
mapping. -/
def runTaskD (td : TaskD) : Option Err :=
  match td.slot with
  | .fillDict => some typeErr
  | .callable f => f.run (unpackArgs td.args) td.kwargs

/-- Program counter of one worker thread running `_wrapped`.
`unspawned`: the thread object has not been started yet.
`atHead`: about to evaluate the `while self.keep_running` condition.
`deq`: passed the condition, about to call `self.queue.get(block=False)`.
`exec t`: dequeued `t`, about to call `func(*args, **kwargs)`.
`markDone t`: the call returned or its exception was handled, about to
call `self.queue.task_done()`.
`exited`: the thread function returned. -/
inductive WState where
  | unspawned
  | atHead
  | deq
  | exec (t : TaskD)
  | markDone (t : TaskD)
  | exited

/-- Program counter of the supervisor thread inside `run_threads`.
`spawn k`: `k` worker threads started so far.
`lenChk`: about to evaluate the funcs-vs-args/kwargs length check.
`poll`: about to evaluate `while self.queue.unfinished_tasks`.
`check`: inside the loop, about to call `self.exceptions.get(block=False)`.
`fin p`: entered the `finally` block, with `p` the exception currently
propagating out of the `try` body (`none` on normal fall-through), about
to call `self.exceptions.get(block=False)`.
`joinPh e`: the `finally` got exception `e`, joining the threads
(bounded by `self.timeout`) before re-raising `e`.
`termd o`: `run_threads` returned (`o = none`) or raised `o`. -/
inductive SupState where
  | spawn (k : Nat)
  | lenChk
  | poll
  | check
  | fin (p : Option Err)
  | joinPh (e : Err)
  | termd (o : Option Err)

/-- The shared state of one `run_threads` invocation.
`queue`, `unfinished`, `excs`, `keepRunning` embed `self.queue` (its item
list and `unfinished_tasks` counter), `self.exceptions`, and
`self.keep_running`; `workers` and `sup` are the thread program counters.
`execLog`, `recLog`, `popped` are ghost observations: the tasks whose
callables were invoked (in invocation order), the failures recorded into
`self.exceptions` (in recording order), and the failures the supervisor
consumed from it (in consumption order). -/
structure SysState where
  queue : List TaskD
  unfinished : Nat
  excs : List Err
  keepRunning : Bool
  workers : List WState
  sup : SupState
  execLog : List TaskD
  recLog : List Err
  popped : List Err

/-- Static configuration the supervisor's length check reads (the three
input list lengths; the lists themselves are consulted nowhere else after
the queue is built). -/
structure Cfg where
  nfuncs : Nat
  nargs : Nat
  nkwargs : Nat

/-- The length check of `run_threads`:
`len(self.funcs) < len(self.args_list) or len(self.funcs) < len(self.kwargs_list)`. -/
def lenBad (c : Cfg) : Prop := c.nfuncs < c.nargs ∨ c.nfuncs < c.nkwargs

instance (c : Cfg) : Decidable (lenBad c) := by unfold lenBad; infer_instance

/-- One atomic interleaving step of the system.  Worker rules locate the
acting worker by an explicit list decomposition `l₁ ++ w :: l₂`. -/
inductive Step (c : Cfg) : SysState → SysState → Prop where
  /-- Worker at the loop head reads `self.keep_running = True` and enters
  the loop body. -/
  | wCheckT (s : SysState) (l₁ l₂ : List WState)
      (hw : s.workers = l₁ ++ .atHead :: l₂) (hk : s.keepRunning = true) :
      Step c s { s with workers := l₁ ++ .deq :: l₂ }
  /-- Worker at the loop head reads `self.keep_running = False` and the
  thread function returns. -/
  | wCheckF (s : SysState) (l₁ l₂ : List WState)
      (hw : s.workers = l₁ ++ .atHead :: l₂) (hk : s.keepRunning = false) :
      Step c s { s with workers := l₁ ++ .exited :: l₂ }
  /-- Worker's non-blocking `queue.get` returns the head task. -/
  | wDeqS (s : SysState) (l₁ l₂ : List WState) (t : TaskD) (q : List TaskD)
      (hw : s.workers = l₁ ++ .deq :: l₂) (hq : s.queue = t :: q) :
      Step c s { s with queue := q, workers := l₁ ++ .exec t :: l₂ }
  /-- Worker's non-blocking `queue.get` raises `queue.Empty`; the worker
  breaks out of the loop and the thread function returns. -/
  | wDeqE (s : SysState) (l₁ l₂ : List WState)
      (hw : s.workers = l₁ ++ .deq :: l₂) (hq : s.queue = []) :
      Step c s { s with workers := l₁ ++ .exited :: l₂ }
  /-- Worker calls `func(*args, **kwargs)` and it returns normally. -/
  | wExecOk (s : SysState) (l₁ l₂ : List WState) (t : TaskD)
      (hw : s.workers = l₁ ++ .exec t :: l₂) (hr : runTaskD t = none) :
      Step c s { s with workers := l₁ ++ .markDone t :: l₂,
                        execLog := s.execLog ++ [t] }
  /-- Worker calls `func(*args, **kwargs)` and it raises `e`: the
  `except Exception` handler sets `self.keep_running = False`, logs, and
  puts the exception info onto `self.exceptions`. -/
  | wExecFail (s : SysState) (l₁ l₂ : List WState) (t : TaskD) (e : Err)
      (hw : s.workers = l₁ ++ .exec t :: l₂) (hr : runTaskD t = some e) :
      Step c s { s with workers := l₁ ++ .markDone t :: l₂,
                        execLog := s.execLog ++ [t],
                        keepRunning := false,
                        excs := s.excs ++ [e],
                        recLog := s.recLog ++ [e] }
  /-- Worker calls `self.queue.task_done()`, decrementing
  `unfinished_tasks`, and returns to the loop head. -/
  | wDone (s : SysState) (l₁ l₂ : List WState) (t : TaskD)
      (hw : s.workers = l₁ ++ .markDone t :: l₂) :
      Step c s { s with workers := l₁ ++ .atHead :: l₂,
                        unfinished := s.unfinished - 1 }
  /-- Supervisor spawn loop: start the next worker thread. -/
  | sSpawn (s : SysState) (l₁ l₂ : List WState)
      (hs : s.sup = .spawn l₁.length)
      (hw : s.workers = l₁ ++ .unspawned :: l₂) :
      Step c s { s with workers := l₁ ++ .atHead :: l₂,
                        sup := .spawn (l₁.length + 1) }
  /-- Supervisor spawn loop exhausted (`max_workers` threads started). -/
  | sSpawnDone (s : SysState) (k : Nat)
      (hs : s.sup = .spawn k) (hk : s.workers.length ≤ k) :
      Step c s { s with sup := .lenChk }
  /-- The funcs-vs-args/kwargs length check fails: `ValueError` raised,
  control transfers to the `finally` block with it propagating. -/
  | sLenBad (s : SysState) (hs : s.sup = .lenChk) (hb : lenBad c) :
      Step c s { s with sup := .fin (some lenErr) }
  /-- The length check passes. -/
  | sLenOk (s : SysState) (hs : s.sup = .lenChk) (hb : ¬ lenBad c) :
      Step c s { s with sup := .poll }
  /-- Poll loop condition `self.queue.unfinished_tasks` reads zero: fall
  through to the `finally` block with nothing propagating. -/
  | sPollZ (s : SysState) (hs : s.sup = .poll) (hu : s.unfinished = 0) :
      Step c s { s with sup := .fin none }
  /-- Poll loop condition reads nonzero: enter the loop body. -/
  | sPollP (s : SysState) (hs : s.sup = .poll) (hu : s.unfinished ≠ 0) :
      Step c s { s with sup := .check }
  /-- `self.exceptions.get(block=False)` in the loop body returns `e`:
  `self.keep_running = False` is set and `raise_(*exc)` transfers control
  to the `finally` block with `e` propagating. -/
  | sChkPop (s : SysState) (e : Err) (es : List Err)
      (hs : s.sup = .check) (he : s.excs = e :: es) :
      Step c s { s with excs := es, keepRunning := false,
                        popped := s.popped ++ [e], sup := .fin (some e) }
  /-- `self.exceptions.get(block=False)` in the loop body raises
  `queue.Empty`; after `sleep(0.2)` the loop condition is re-evaluated. -/
  | sChkEmpty (s : SysState) (hs : s.sup = .check) (he : s.excs = []) :
      Step c s { s with sup := .poll }
  /-- `self.exceptions.get(block=False)` in the `finally` block returns
  `e`: `self.keep_running = False` is set and the thread-join loop runs
  before `raise_(*exc)` re-raises `e` (replacing any exception `p` that
  was propagating). -/
  | sFinPop (s : SysState) (p : Option Err) (e : Err) (es : List Err)
      (hs : s.sup = .fin p) (he : s.excs = e :: es) :
      Step c s { s with excs := es, keepRunning := false,
                        popped := s.popped ++ [e], sup := .joinPh e }
  /-- `self.exceptions.get(block=False)` in the `finally` block raises
  `queue.Empty`: the handler passes, no thread is joined, and
  `run_threads` returns normally (`p = none`) or the propagating
  exception `p` reaches the caller. -/
  | sFinEmpty (s : SysState) (p : Option Err)
      (hs : s.sup = .fin p) (he : s.excs = []) :
      Step c s { s with sup := .termd p }
  /-- The `thread.join(self.timeout)` loop completes because every worker
  thread has finished; `raise_(*exc)` then raises `e` to the caller. -/
  | sJoinAll (s : SysState) (e : Err)
      (hs : s.sup = .joinPh e) (hj : ∀ w ∈ s.workers, w = WState.exited) :
      Step c s { s with sup := .termd (some e) }
  /-- A `thread.join(self.timeout)` call returns because the timeout
  elapsed (workers are not forcibly killed); `raise_(*exc)` then raises
  `e` to the caller. -/
  | sJoinTO (s : SysState) (e : Err) (hs : s.sup = .joinPh e) :
      Step c s { s with sup := .termd (some e) }

/-- Zero or more interleaving steps. -/
def Trace (c : Cfg) : SysState → SysState → Prop :=
  Relation.ReflTransGen (Step c)

/-- The caller-supplied constructor arguments of one `Parallel` use. -/
structure Input where
  funcs : List Func
  argsL : List ArgsEntry
  kwargsL : List Kw
  maxWorkers : Nat

/-- The static configuration of an input. -/
def cfgOf (inp : Input) : Cfg :=
  ⟨inp.funcs.length, inp.argsL.length, inp.kwargsL.length⟩

/-- The state of the invocation at the point where interleaving starts.
The enqueue loop runs before any worker thread exists, so it is collapsed
into the initial state: on success the supervisor is about to run the
spawn loop; if the string check raised, the supervisor is entering the
`finally` block with the `ValueError` propagating, the partially built
queue in place and no worker ever started. -/
def initState (inp : Input) : SysState :=
  match buildQueue inp.funcs inp.argsL inp.kwargsL with
  | (q, none) =>
      { queue := q, unfinished := q.length, excs := [], keepRunning := true
        workers := List.replicate inp.maxWorkers .unspawned
        sup := .spawn 0, execLog := [], recLog := [], popped := [] }
  | (q, some e) =>
      { queue := q, unfinished := q.length, excs := [], keepRunning := true
        workers := List.replicate inp.maxWorkers .unspawned
        sup := .fin (some e), execLog := [], recLog := [], popped := [] }

/-- A state in which `run_threads` has returned or raised. -/
def Terminal (s : SysState) : Prop := ∃ o, s.sup = SupState.termd o

/-- Reading position `i` of `l₁ ++ a :: l₂`: either `i` is exactly the
distinguished position (and the value read is `a`), or the read is
insensitive to what sits at that position. -/
theorem getElem_append_cons_cases {α : Type} {l₁ l₂ : List α} {a v : α}
    {i : Nat} (h : (l₁ ++ a :: l₂)[i]? = some v) :
    (i = l₁.length ∧ v = a) ∨ ∀ b : α, (l₁ ++ b :: l₂)[i]? = some v := by
  rcases Nat.lt_trichotomy i l₁.length with hlt | heq | hgt
  · refine Or.inr fun b => ?_
    rw [List.getElem?_append_left hlt] at h ⊢
    exact h
  · refine Or.inl ⟨heq, ?_⟩
    subst heq
    rw [List.getElem?_append_right (Nat.le_refl _), Nat.sub_self] at h
    rw [List.getElem?_cons_zero] at h
    exact (Option.some_injective _ h).symm
  · refine Or.inr fun b => ?_
    rw [List.getElem?_append_right (Nat.le_of_lt hgt)] at h ⊢
    obtain ⟨k, hk⟩ : ∃ k, i - l₁.length = k + 1 := ⟨i - l₁.length - 1, by omega⟩
    rw [hk] at h ⊢
    rw [List.getElem?_cons_succ] at h ⊢
    exact h

/-- Reading the distinguished position of `l₁ ++ a :: l₂` yields `a`. -/
theorem getElem_append_cons_self {α : Type} {l₁ l₂ : List α} {a : α} :
    (l₁ ++ a :: l₂)[l₁.length]? = some a := by
  rw [List.getElem?_append_right (Nat.le_refl _), Nat.sub_self,
    List.getElem?_cons_zero]

/-- `self.keep_running` is monotonic: no step ever resets it to `True`
(only `__init__` sets it to `True`; `_wrapped`'s handler and
`run_threads` only assign `False`). -/
theorem step_keepRunning_mono {c : Cfg} {s s' : SysState}
    (hst : Step c s s') (hk : s.keepRunning = false) :
    s'.keepRunning = false := by
  cases hst <;> simp_all

/-- A worker standing at the `while self.keep_running` check after the
flag has been cleared can only exit: any step leaves it at the loop head
or moves it to `exited`, dequeuing nothing and executing nothing. -/
theorem step_atHead_stop {c : Cfg} {s s' : SysState} {i : Nat}
    (hst : Step c s s') (hk : s.keepRunning = false)
    (hi : s.workers[i]? = some WState.atHead) :
    s'.workers[i]? = some WState.atHead ∨
      (s'.workers[i]? = some WState.exited ∧ s'.queue = s.queue ∧
       s'.execLog = s.execLog) := by
  cases hst with
  | wCheckT l₁ l₂ hw hkr => rw [hk] at hkr; cases hkr
  | wCheckF l₁ l₂ hw hkr =>
      rw [hw] at hi
      rcases getElem_append_cons_cases hi with ⟨hieq, _⟩ | hoff
      · subst hieq
        exact Or.inr ⟨getElem_append_cons_self, rfl, rfl⟩
      · exact Or.inl (hoff _)
  | wDeqS l₁ l₂ t q hw hq =>
      rw [hw] at hi
      rcases getElem_append_cons_cases hi with ⟨_, hv⟩ | hoff
      · cases hv
      · exact Or.inl (hoff _)
  | wDeqE l₁ l₂ hw hq =>
      rw [hw] at hi
      rcases getElem_append_cons_cases hi with ⟨_, hv⟩ | hoff
      · cases hv
      · exact Or.inl (hoff _)
  | wExecOk l₁ l₂ t hw hr =>
      rw [hw] at hi
      rcases getElem_append_cons_cases hi with ⟨_, hv⟩ | hoff
      · cases hv
      · exact Or.inl (hoff _)
  | wExecFail l₁ l₂ t e hw hr =>
      rw [hw] at hi
      rcases getElem_append_cons_cases hi with ⟨_, hv⟩ | hoff
      · cases hv
      · exact Or.inl (hoff _)
  | wDone l₁ l₂ t hw =>
      rw [hw] at hi
      rcases getElem_append_cons_cases hi with ⟨_, hv⟩ | hoff
      · cases hv
      · exact Or.inl (hoff _)
  | sSpawn l₁ l₂ hs hw =>
      rw [hw] at hi
      rcases getElem_append_cons_cases hi with ⟨_, hv⟩ | hoff
      · cases hv
      · exact Or.inl (hoff _)
  | sSpawnDone k hs hk' => exact Or.inl hi
  | sLenBad hs hb => exact Or.inl hi
  | sLenOk hs hb => exact Or.inl hi
  | sPollZ hs hu => exact Or.inl hi
  | sPollP hs hu => exact Or.inl hi
  | sChkPop e es hs he => exact Or.inl hi
  | sChkEmpty hs he => exact Or.inl hi
  | sFinPop p e es hs he => exact Or.inl hi
  | sFinEmpty p hs he => exact Or.inl hi
  | sJoinAll e hs hj => exact Or.inl hi
  | sJoinTO e hs => exact Or.inl hi

/-- A task already dequeued and being executed finishes naturally: no
step cancels it — the holding worker either still holds it or has
completed the call (success or failure alike) and is about to mark it
done. -/
theorem step_exec_completes {c : Cfg} {s s' : SysState} {i : Nat}
    {t : TaskD} (hst : Step c s s')
    (hi : s.workers[i]? = some (WState.exec t)) :
    s'.workers[i]? = some (WState.exec t) ∨
      s'.workers[i]? = some (WState.markDone t) := by
  cases hst with
  | wCheckT l₁ l₂ hw hkr =>
      rw [hw] at hi
      rcases getElem_append_cons_cases hi with ⟨_, hv⟩ | hoff
      · cases hv
      · exact Or.inl (hoff _)
  | wCheckF l₁ l₂ hw hkr =>
      rw [hw] at hi
      rcases getElem_append_cons_cases hi with ⟨_, hv⟩ | hoff
      · cases hv
      · exact Or.inl (hoff _)
  | wDeqS l₁ l₂ t' q hw hq =>
      rw [hw] at hi
      rcases getElem_append_cons_cases hi with ⟨_, hv⟩ | hoff
      · cases hv
      · exact Or.inl (hoff _)
  | wDeqE l₁ l₂ hw hq =>
      rw [hw] at hi
      rcases getElem_append_cons_cases hi with ⟨_, hv⟩ | hoff
      · cases hv
      · exact Or.inl (hoff _)
  | wExecOk l₁ l₂ t' hw hr =>
      rw [hw] at hi
      rcases getElem_append_cons_cases hi with ⟨hieq, hv⟩ | hoff
      · cases hv
        subst hieq
        exact Or.inr getElem_append_cons_self
      · exact Or.inl (hoff _)
  | wExecFail l₁ l₂ t' e hw hr =>
      rw [hw] at hi
      rcases getElem_append_cons_cases hi with ⟨hieq, hv⟩ | hoff
      · cases hv
        subst hieq
        exact Or.inr getElem_append_cons_self
      · exact Or.inl (hoff _)
  | wDone l₁ l₂ t' hw =>
      rw [hw] at hi
      rcases getElem_append_cons_cases hi with ⟨_, hv⟩ | hoff
      · cases hv
      · exact Or.inl (hoff _)
  | sSpawn l₁ l₂ hs hw =>
      rw [hw] at hi
      rcases getElem_append_cons_cases hi with ⟨_, hv⟩ | hoff
      · cases hv
      · exact Or.inl (hoff _)
  | sSpawnDone k hs hk' => exact Or.inl hi
  | sLenBad hs hb => exact Or.inl hi
  | sLenOk hs hb => exact Or.inl hi
  | sPollZ hs hu => exact Or.inl hi
  | sPollP hs hu => exact Or.inl hi
  | sChkPop e es hs he => exact Or.inl hi
  | sChkEmpty hs he => exact Or.inl hi
  | sFinPop p e es hs he => exact Or.inl hi
  | sFinEmpty p hs he => exact Or.inl hi
  | sJoinAll e hs hj => exact Or.inl hi
  | sJoinTO e hs => exact Or.inl hi

end DbmpUtils

namespace DbmpUtils

/-- C7: Once `self.keep_running` has been set to `False` by a task
failure it never becomes `True` again; a worker whose next
`while self.keep_running` check sees `False` exits without dequeuing a
new task (its only move leaves the queue and the execution log
untouched); and a task already dequeued and being executed is left to
finish naturally — no step cancels it, it can only be completed and
marked done. -/
theorem C7_stop_signal_one_way (c : Cfg) :
    (∀ s s' : SysState, Step c s s' → s.keepRunning = false →
       s'.keepRunning = false) ∧
    (∀ s s' : SysState, ∀ i : Nat, Step c s s' → s.keepRunning = false →
       s.workers[i]? = some WState.atHead →
       s'.workers[i]? = some WState.atHead ∨
         (s'.workers[i]? = some WState.exited ∧ s'.queue = s.queue ∧
          s'.execLog = s.execLog)) ∧
    (∀ s s' : SysState, ∀ i : Nat, ∀ t : TaskD, Step c s s' →
       s.workers[i]? = some (WState.exec t) →
       s'.workers[i]? = some (WState.exec t) ∨
         s'.workers[i]? = some (WState.markDone t)) :=
  ⟨fun _ _ h hk => step_keepRunning_mono h hk,
   fun _ _ _ h hk hi => step_atHead_stop h hk hi,
   fun _ _ _ _ h hi => step_exec_completes h hi⟩

/-- A concrete task descriptor used by the C7 witness. -/
def w7t : TaskD := ⟨.fillDict, .cellFill, []⟩

/-- A concrete state with the stop signal already set and one worker at
the loop head. -/
def w7s : SysState :=
  ⟨[w7t], 1, [], false, [WState.atHead], SupState.poll, [], [], []⟩

/-- `w7s` after the worker observes the cleared flag and exits. -/
def w7sA : SysState :=
  ⟨[w7t], 1, [], false, [WState.exited], SupState.poll, [], [], []⟩

/-- A concrete state with one worker holding a dequeued task. -/
def w7s2 : SysState :=
  ⟨[], 1, [], true, [WState.exec w7t], SupState.poll, [], [], []⟩

/-- `w7s2` after the held task's call raises and is handled. -/
def w7s2A : SysState :=
  ⟨[], 1, [typeErr], false, [WState.markDone w7t], SupState.poll, [w7t],
   [typeErr], []⟩

/-- Witness for C7 at concrete states: a stop-flag-preserving step, an
exit-at-loop-head step, and a task-completion step. -/
theorem C7_stop_signal_one_way_witness :
    w7sA.keepRunning = false ∧
    (w7sA.workers[0]? = some WState.atHead ∨
      (w7sA.workers[0]? = some WState.exited ∧ w7sA.queue = w7s.queue ∧
       w7sA.execLog = w7s.execLog)) ∧
    (w7s2A.workers[0]? = some (WState.exec w7t) ∨
      w7s2A.workers[0]? = some (WState.markDone w7t)) :=
  have hstA : Step ⟨0, 0, 0⟩ w7s w7sA := Step.wCheckF w7s [] [] rfl rfl
  have hstB : Step ⟨0, 0, 0⟩ w7s2 w7s2A :=
    Step.wExecFail w7s2 [] [] w7t typeErr rfl rfl
  ⟨(C7_stop_signal_one_way ⟨0, 0, 0⟩).1 w7s w7sA hstA rfl,
   (C7_stop_signal_one_way ⟨0, 0, 0⟩).2.1 w7s w7sA 0 hstA rfl rfl,
   (C7_stop_signal_one_way ⟨0, 0, 0⟩).2.2 w7s2 w7s2A 0 w7t hstB rfl⟩

end DbmpUtils

namespace DbmpUtils

/-- If no row has a bare string in its args slot, the enqueue loop
enqueues every row and raises nothing. -/
theorem enqueueRows_ok {l : List TaskD}
    (h : ∀ td ∈ l, isStrCell td.args = false) : enqueueRows l = (l, none) := by
  induction l with
  | nil => rfl
  | cons td rest ih =>
      have h1 : isStrCell td.args = false := h td (List.mem_cons_self _ _)
      have h2 := ih fun x hx => h x (List.mem_cons_of_mem _ hx)
      simp [enqueueRows, h1, h2]

/-- If some row has a bare string in its args slot, the enqueue loop
raises the `ValueError`. -/
theorem enqueueRows_str {l : List TaskD}
    (h : ∃ td ∈ l, isStrCell td.args = true) :
    (enqueueRows l).2 = some strErr := by
  induction l with
  | nil =>
      rcases h with ⟨x, hx, _⟩
      cases hx
  | cons td rest ih =>
      by_cases h1 : isStrCell td.args = true
      · simp [enqueueRows, h1]
      · have h2 : ∃ x ∈ rest, isStrCell x.args = true := by
          rcases h with ⟨x, hx, hxs⟩
          rcases List.mem_cons.mp hx with rfl | hx'
          · exact absurd hxs h1
          · exact ⟨x, hx', hxs⟩
        simp [enqueueRows, h1, ih h2]

/-- No descriptor the enqueue loop actually enqueued has a bare string in
its args slot. -/
theorem enqueueRows_fst_no_str {l : List TaskD} :
    ∀ td ∈ (enqueueRows l).1, isStrCell td.args = false := by
  induction l with
  | nil => simp [enqueueRows]
  | cons td rest ih =>
      by_cases h1 : isStrCell td.args = true
      · simp [enqueueRows, h1]
      · intro x hx
        rw [enqueueRows, if_neg h1] at hx
        rcases List.mem_cons.mp hx with rfl | hx'
        · exact eq_false_of_ne_true h1
        · exact ih x hx'

/-- Row `i` of the `zip_longest` iteration, for `i` in range. -/
theorem rows_getElem {fs : List Func} {al : List ArgsEntry} {kl : List Kw}
    {i : Nat} (hi : i < nRows fs al kl) :
    (rows fs al kl)[i]? = some (rowAt fs al kl i) := by
  simp [rows, List.getElem?_map, List.getElem?_range, hi]

/-- When no `args_list` entry is a bare string, no `zip_longest` row has
a bare string in its args slot. -/
theorem rows_no_str {fs : List Func} {al : List ArgsEntry} {kl : List Kw}
    (hstr : ∀ st, ArgsEntry.aStr st ∉ al) :
    ∀ td ∈ rows fs al kl, isStrCell td.args = false := by
  intro td htd
  rcases List.mem_map.mp htd with ⟨i, _, rfl⟩
  unfold rowAt
  match hcell : al[i]? with
  | none => simp [toCell, hcell, isStrCell]
  | some (.aStr st) =>
      exact absurd (List.getElem?_mem hcell) (hstr st)
  | some (.aSeq xs) => simp [toCell, hcell, isStrCell]

/-- C8: when the callables list is longer than `args_list` (resp.
`kwargs_list`), every task beyond the end of the shorter list is
enqueued with the `zip_longest` fill `{}` as its positional-argument
(resp. keyword-argument) slot, which unpacks to no arguments at all, so
the padded task executes exactly as its callable invoked with an empty
set of positional/keyword arguments; the padding itself raises no
error. -/
theorem C8_short_lists_padded (fs : List Func) (al : List ArgsEntry)
    (kl : List Kw) (i : Nat) (hstr : ∀ st, ArgsEntry.aStr st ∉ al)
    (hif : i < fs.length) :
    (buildQueue fs al kl).2 = none ∧
    (al.length ≤ i → kl.length ≤ i →
      (buildQueue fs al kl).1[i]? =
        some ⟨.callable fs[i], .cellFill, []⟩ ∧
      runTaskD ⟨.callable fs[i], .cellFill, []⟩ = fs[i].run [] []) ∧
    (al.length ≤ i → toCell al[i]? = .cellFill ∧
      unpackArgs (toCell al[i]?) = []) ∧
    (kl.length ≤ i → toKw kl[i]? = []) := by
  have hnos := @rows_no_str fs al kl hstr
  have hok : enqueueRows (rows fs al kl) = (rows fs al kl, none) :=
    enqueueRows_ok hnos
  have hlt : i < nRows fs al kl :=
    Nat.lt_of_lt_of_le hif (Nat.le_max_left _ _)
  have halg : al.length ≤ i → al[i]? = none := fun h =>
    List.getElem?_eq_none h
  have hklg : kl.length ≤ i → kl[i]? = none := fun h =>
    List.getElem?_eq_none h
  refine ⟨by simp [buildQueue, hok], ?_, ?_, ?_⟩
  · intro ha hk
    have hrow : (rows fs al kl)[i]? = some (rowAt fs al kl i) :=
      rows_getElem hlt
    have : rowAt fs al kl i = ⟨.callable fs[i], .cellFill, []⟩ := by
      unfold rowAt
      rw [halg ha, hklg hk, List.getElem?_eq_getElem hif]
      rfl
    constructor
    · rw [buildQueue, hok]
      rw [hrow, this]
    · rfl
  · intro ha
    rw [halg ha]
    exact ⟨rfl, rfl⟩
  · intro hk
    rw [hklg hk]
    rfl

/-- A concrete callable for the C8 witness: succeeds on any arguments. -/
def okFunc : Func := ⟨7, fun _ _ => none⟩

/-- Witness for C8: three callables, one positional-argument set and no
keyword sets; task 2 is padded on both sides and runs with no
arguments. -/
theorem C8_short_lists_padded_witness :
    (buildQueue [okFunc, okFunc, okFunc] [ArgsEntry.aSeq [1]] []).2 = none ∧
    ((buildQueue [okFunc, okFunc, okFunc] [ArgsEntry.aSeq [1]] []).1[2]? =
        some ⟨.callable okFunc, .cellFill, []⟩ ∧
      runTaskD ⟨.callable okFunc, .cellFill, []⟩ = okFunc.run [] []) := by
  have h := C8_short_lists_padded [okFunc, okFunc, okFunc]
    [ArgsEntry.aSeq [1]] [] 2
    (by intro st hst; simp at hst)
    (by simp)
  exact ⟨h.1, h.2.1 (by simp) (by simp)⟩

end DbmpUtils

namespace DbmpUtils

/-- A list of `n` copies of `a` cannot expose a different element. -/
theorem replicate_no_cons {α : Type} {n : Nat} {a b : α} {l₁ l₂ : List α}
    (h : List.replicate n a = l₁ ++ b :: l₂) : b = a := by
  have hb : b ∈ List.replicate n a := by
    rw [h]
    exact List.mem_append_right l₁ (List.mem_cons_self _ _)
  exact List.eq_of_mem_replicate hb

/-- Invariant of an invocation whose enqueue loop raised `e0` before any
worker thread was started: the partial queue `q0` is frozen, no failure
is ever recorded, nothing is ever executed, all workers stay unspawned,
and the supervisor is propagating `e0` out of the `finally` block. -/
def C6Inv (q0 : List TaskD) (e0 : Err) (mw : Nat) (s : SysState) : Prop :=
  s.queue = q0 ∧ s.excs = [] ∧ s.execLog = [] ∧
  s.workers = List.replicate mw WState.unspawned ∧
  (s.sup = SupState.fin (some e0) ∨ s.sup = SupState.termd (some e0))

/-- The enqueue-error invariant is preserved by every step. -/
theorem C6Inv_step {c : Cfg} {q0 : List TaskD} {e0 : Err} {mw : Nat}
    {s s' : SysState} (h : C6Inv q0 e0 mw s) (hst : Step c s s') :
    C6Inv q0 e0 mw s' := by
  obtain ⟨hq, he, hl, hw, hs⟩ := h
  cases hst with
  | wCheckT l₁ l₂ hw' hk => rw [hw] at hw'; cases replicate_no_cons hw'
  | wCheckF l₁ l₂ hw' hk => rw [hw] at hw'; cases replicate_no_cons hw'
  | wDeqS l₁ l₂ t q hw' hq' => rw [hw] at hw'; cases replicate_no_cons hw'
  | wDeqE l₁ l₂ hw' hq' => rw [hw] at hw'; cases replicate_no_cons hw'
  | wExecOk l₁ l₂ t hw' hr => rw [hw] at hw'; cases replicate_no_cons hw'
  | wExecFail l₁ l₂ t e hw' hr => rw [hw] at hw'; cases replicate_no_cons hw'
  | wDone l₁ l₂ t hw' => rw [hw] at hw'; cases replicate_no_cons hw'
  | sSpawn l₁ l₂ hs' hw' =>
      rcases hs with h1 | h1 <;> (rw [h1] at hs'; cases hs')
  | sSpawnDone k hs' hk =>
      rcases hs with h1 | h1 <;> (rw [h1] at hs'; cases hs')
  | sLenBad hs' hb =>
      rcases hs with h1 | h1 <;> (rw [h1] at hs'; cases hs')
  | sLenOk hs' hb =>
      rcases hs with h1 | h1 <;> (rw [h1] at hs'; cases hs')
  | sPollZ hs' hu =>
      rcases hs with h1 | h1 <;> (rw [h1] at hs'; cases hs')
  | sPollP hs' hu =>
      rcases hs with h1 | h1 <;> (rw [h1] at hs'; cases hs')
  | sChkPop e es hs' he' =>
      rcases hs with h1 | h1 <;> (rw [h1] at hs'; cases hs')
  | sChkEmpty hs' he' =>
      rcases hs with h1 | h1 <;> (rw [h1] at hs'; cases hs')
  | sFinPop p e es hs' he' => rw [he] at he'; cases he'
  | sFinEmpty p hs' he' =>
      rcases hs with h1 | h1
      · rw [h1] at hs'
        cases hs'
        exact ⟨hq, he, hl, hw, Or.inr rfl⟩
      · rw [h1] at hs'; cases hs'
  | sJoinAll e hs' hj =>
      rcases hs with h1 | h1 <;> (rw [h1] at hs'; cases hs')
  | sJoinTO e hs' =>
      rcases hs with h1 | h1 <;> (rw [h1] at hs'; cases hs')

end DbmpUtils

namespace DbmpUtils

/-- Shape of the initial state when the enqueue loop raised `e`: the
partial queue is in place, nothing was spawned, and the supervisor is
entering the `finally` block with `e` propagating. -/
theorem initState_err {inp : Input} {e : Err}
    (h : (buildQueue inp.funcs inp.argsL inp.kwargsL).2 = some e) :
    initState inp =
      { queue := (buildQueue inp.funcs inp.argsL inp.kwargsL).1,
        unfinished := (buildQueue inp.funcs inp.argsL inp.kwargsL).1.length,
        excs := [], keepRunning := true,
        workers := List.replicate inp.maxWorkers WState.unspawned,
        sup := SupState.fin (some e), execLog := [], recLog := [],
        popped := [] } := by
  have hpair : buildQueue inp.funcs inp.argsL inp.kwargsL =
      ((buildQueue inp.funcs inp.argsL inp.kwargsL).1, some e) := by
    rw [← h]
  unfold initState
  rw [hpair]

/-- Shape of the initial state when the enqueue loop completed: the full
queue is in place and the supervisor is about to run the spawn loop. -/
theorem initState_ok {inp : Input}
    (h : (buildQueue inp.funcs inp.argsL inp.kwargsL).2 = none) :
    initState inp =
      { queue := (buildQueue inp.funcs inp.argsL inp.kwargsL).1,
        unfinished := (buildQueue inp.funcs inp.argsL inp.kwargsL).1.length,
        excs := [], keepRunning := true,
        workers := List.replicate inp.maxWorkers WState.unspawned,
        sup := SupState.spawn 0, execLog := [], recLog := [],
        popped := [] } := by
  have hpair : buildQueue inp.funcs inp.argsL inp.kwargsL =
      ((buildQueue inp.funcs inp.argsL inp.kwargsL).1, none) := by
    rw [← h]
  unfold initState
  rw [hpair]

/-- C6: if some entry of `args_list` is a bare string, the enqueue loop
of `run_threads` raises the `ValueError` before any worker thread is
started: in every state the invocation can ever reach, no task callable
has been invoked, no descriptor whose args slot is a bare string is in
the queue (the offending descriptor was never enqueued), and if
`run_threads` has finished it raised exactly that `ValueError`. -/
theorem C6_bare_string_fails_fast (inp : Input) (st : String)
    (hmem : ArgsEntry.aStr st ∈ inp.argsL) :
    (buildQueue inp.funcs inp.argsL inp.kwargsL).2 = some strErr ∧
    ∀ s, Trace (cfgOf inp) (initState inp) s →
      s.execLog = [] ∧ (∀ td ∈ s.queue, isStrCell td.args = false) ∧
      ∀ o, s.sup = SupState.termd o → o = some strErr := by
  have herr : (buildQueue inp.funcs inp.argsL inp.kwargsL).2 = some strErr := by
    apply enqueueRows_str
    rcases List.mem_iff_getElem?.mp hmem with ⟨i, hi⟩
    have hlt : i < inp.argsL.length :=
      (List.getElem?_eq_some_iff.mp hi).1
    have hrow : (rows inp.funcs inp.argsL inp.kwargsL)[i]? =
        some (rowAt inp.funcs inp.argsL inp.kwargsL i) := by
      apply rows_getElem
      exact Nat.lt_of_lt_of_le hlt
        (Nat.le_trans (Nat.le_max_left _ _) (Nat.le_max_right _ _))
    refine ⟨rowAt inp.funcs inp.argsL inp.kwargsL i,
      List.getElem?_mem hrow, ?_⟩
    unfold rowAt
    rw [hi]
    rfl
  refine ⟨herr, ?_⟩
  have hinv : ∀ s, Trace (cfgOf inp) (initState inp) s →
      C6Inv (buildQueue inp.funcs inp.argsL inp.kwargsL).1 strErr
        inp.maxWorkers s := by
    intro s htr
    induction htr with
    | refl =>
        rw [initState_err herr]
        exact ⟨rfl, rfl, rfl, rfl, Or.inl rfl⟩
    | tail h1 h2 ih => exact C6Inv_step ih h2
  intro s htr
  obtain ⟨hq, he, hl, hw, hs⟩ := hinv s htr
  refine ⟨hl, ?_, ?_⟩
  · intro td htd
    rw [hq] at htd
    exact enqueueRows_fst_no_str td htd
  · intro o ho
    rcases hs with h1 | h1
    · rw [ho] at h1; cases h1
    · rw [ho] at h1
      injection h1 with h2

/-- The concrete invocation for the C6 witness: a bare string as the
only `args_list` entry. -/
def c6inp : Input := ⟨[okFunc], [ArgsEntry.aStr "x"], [], 1⟩

/-- Witness for C6: the hypotheses hold at `c6inp` and the conclusion
evaluates there — the build errors out and the reachable (initial) state
has executed nothing. -/
theorem C6_bare_string_fails_fast_witness :
    (ArgsEntry.aStr "x" ∈ c6inp.argsL) ∧
    (buildQueue c6inp.funcs c6inp.argsL c6inp.kwargsL).2 = some strErr ∧
    (initState c6inp).execLog = [] :=
  have hm : ArgsEntry.aStr "x" ∈ c6inp.argsL := List.mem_cons_self _ _
  have h := C6_bare_string_fails_fast c6inp "x" hm
  ⟨hm, h.1, (h.2 (initState c6inp) Relation.ReflTransGen.refl).1⟩

end DbmpUtils

namespace DbmpUtils

/-- The task a worker has dequeued and not yet executed. -/
def wHeld : WState → Option TaskD
  | .exec t => some t
  | _ => none

/-- Tasks dequeued but not yet executed, across all workers. -/
def heldUnexec (ws : List WState) : List TaskD := ws.filterMap wHeld

/-- Whether a worker sits between its `queue.get` and its
`queue.task_done` (the window in which a task counts as in flight). -/
def wBusy : WState → Bool
  | .exec _ => true
  | .markDone _ => true
  | _ => false

/-- Number of dequeued-but-not-yet-marked-done tasks. -/
def inflight (ws : List WState) : Nat := ws.countP wBusy

/-- The validation `ValueError`s this particular input can raise: the
string-check error of the enqueue loop and/or the length-check error. -/
def vErrs (inp : Input) : List Err :=
  (match (buildQueue inp.funcs inp.argsL inp.kwargsL).2 with
   | some e => [e]
   | none => []) ++
  (if lenBad (cfgOf inp) then [lenErr] else [])

/-- Supervisor-phase bookkeeping: which recorded failures the supervisor
has consumed (`popped`) in each phase, and that the poll loop only falls
through to the `finally` block normally once `unfinished_tasks` is zero.
In `fin (some e)` the propagating exception is either the one popped in
the poll loop or a validation error; in the join phase the popped list
ends with the exception about to be re-raised. -/
def supOk (vE : List Err) (sup : SupState) (popped : List Err)
    (unfinished : Nat) (excs : List Err) : Prop :=
  match sup with
  | .spawn _ => popped = []
  | .lenChk => popped = []
  | .poll => popped = []
  | .check => popped = []
  | .fin none => popped = [] ∧ unfinished = 0
  | .fin (some e) => popped = [e] ∨ (popped = [] ∧ e ∈ vE)
  | .joinPh e => popped = [e] ∨ ∃ e1, popped = [e1, e]
  | .termd none => popped = [] ∧ unfinished = 0 ∧ excs = []
  | .termd (some e) =>
      (popped = [e] ∨ ∃ e1, popped = [e1, e]) ∨ (popped = [] ∧ e ∈ vE)

/-- `supOk` is insensitive to decrementing a zero-constrained counter. -/
theorem supOk_sub_one {vE : List Err} {sup : SupState} {popped : List Err}
    {n : Nat} {excs : List Err} (h : supOk vE sup popped n excs) :
    supOk vE sup popped (n - 1) excs := by
  cases sup with
  | fin p =>
      cases p with
      | none =>
          obtain ⟨h1, h2⟩ := h
          exact ⟨h1, by omega⟩
      | some e => exact h
  | termd o =>
      cases o with
      | none =>
          obtain ⟨h1, h2, h3⟩ := h
          exact ⟨h1, by omega, h3⟩
      | some e => exact h
  | spawn k => exact h
  | lenChk => exact h
  | poll => exact h
  | check => exact h
  | joinPh e => exact h

/-- The global invariant of one `run_threads` invocation: the counter
`unfinished_tasks` counts queued plus in-flight tasks; the built queue is
partitioned (as a multiset) into still-queued, dequeued-but-unexecuted
and executed tasks; the recorded failures are exactly the failures of the
executed tasks in execution order; the failure queue holds the recorded
failures the supervisor has not yet consumed; and the supervisor phase
bookkeeping `supOk` holds. -/
structure Inv (inp : Input) (s : SysState) : Prop where
  unf : s.unfinished = s.queue.length + inflight s.workers
  tasks : ((buildQueue inp.funcs inp.argsL inp.kwargsL).1 : Multiset TaskD) =
    (s.queue : Multiset TaskD) + (heldUnexec s.workers : Multiset TaskD) +
      (s.execLog : Multiset TaskD)
  recs : s.recLog = s.execLog.filterMap runTaskD
  pops : s.popped ++ s.excs = s.recLog
  supInv : supOk (vErrs inp) s.sup s.popped s.unfinished s.excs

/-- No worker of an unspawned pool is in flight. -/
theorem inflight_replicate_unspawned (n : Nat) :
    inflight (List.replicate n WState.unspawned) = 0 := by
  induction n with
  | zero => rfl
  | succ k ih =>
      rw [List.replicate_succ]
      simp [inflight, List.countP_cons, wBusy] at ih ⊢

/-- No worker of an unspawned pool holds a task. -/
theorem heldUnexec_replicate_unspawned (n : Nat) :
    heldUnexec (List.replicate n WState.unspawned) = [] := by
  induction n with
  | zero => rfl
  | succ k ih =>
      rw [List.replicate_succ]
      simp [heldUnexec, List.filterMap_cons, wHeld] at ih ⊢

/-- The invariant holds initially. -/
theorem Inv_init (inp : Input) : Inv inp (initState inp) := by
  match hb : (buildQueue inp.funcs inp.argsL inp.kwargsL).2 with
  | none =>
      rw [initState_ok hb]
      refine ⟨?_, ?_, rfl, rfl, ?_⟩
      · simp [inflight_replicate_unspawned]
      · simp [heldUnexec_replicate_unspawned]
      · exact rfl
  | some e =>
      rw [initState_err hb]
      refine ⟨?_, ?_, rfl, rfl, ?_⟩
      · simp [inflight_replicate_unspawned]
      · simp [heldUnexec_replicate_unspawned]
      · refine Or.inr ⟨rfl, ?_⟩
        unfold vErrs
        rw [hb]
        exact List.mem_append_left _ (List.mem_cons_self _ _)

end DbmpUtils

namespace DbmpUtils

/-- In-flight count across a decomposition. -/
theorem inflight_split (l₁ l₂ : List WState) (w : WState) :
    inflight (l₁ ++ w :: l₂) =
      inflight l₁ + inflight l₂ + (if wBusy w then 1 else 0) := by
  cases hw : wBusy w
  · simp [inflight, List.countP_append, List.countP_cons, hw]
  · simp [inflight, List.countP_append, List.countP_cons, hw]
    omega

/-- Held tasks across a decomposition. -/
theorem heldUnexec_split (l₁ l₂ : List WState) (w : WState) :
    heldUnexec (l₁ ++ w :: l₂) =
      heldUnexec l₁ ++ ((wHeld w).toList ++ heldUnexec l₂) := by
  cases w <;>
    simp [heldUnexec, List.filterMap_append, List.filterMap_cons, wHeld,
      Option.toList]

/-- The invariant is preserved when one worker changes state without
changing its busy/held status and nothing else changes. -/
theorem Inv_workers_quiet {inp : Input} {s : SysState} (h : Inv inp s)
    {l₁ l₂ : List WState} {w w' : WState} (hw : s.workers = l₁ ++ w :: l₂)
    (hbusy : wBusy w' = wBusy w) (hheld : wHeld w' = wHeld w) :
    Inv inp { s with workers := l₁ ++ w' :: l₂ } := by
  obtain ⟨hu, ht, hr, hp, hsup⟩ := h
  refine ⟨?_, ?_, hr, hp, hsup⟩
  · show s.unfinished = s.queue.length + inflight (l₁ ++ w' :: l₂)
    rw [inflight_split, hbusy, ← inflight_split, ← hw]
    exact hu
  · show ((buildQueue inp.funcs inp.argsL inp.kwargsL).1 : Multiset TaskD) =
      (s.queue : Multiset TaskD) +
        (heldUnexec (l₁ ++ w' :: l₂) : Multiset TaskD) +
        (s.execLog : Multiset TaskD)
    rw [heldUnexec_split, hheld, ← heldUnexec_split, ← hw]
    exact ht

/-- The global invariant is preserved by every interleaving step. -/
theorem Inv_step {inp : Input} {s s' : SysState} (h : Inv inp s)
    (hst : Step (cfgOf inp) s s') : Inv inp s' := by
  cases hst with
  | wCheckT l₁ l₂ hw hk => exact Inv_workers_quiet h hw rfl rfl
  | wCheckF l₁ l₂ hw hk => exact Inv_workers_quiet h hw rfl rfl
  | wDeqE l₁ l₂ hw hq => exact Inv_workers_quiet h hw rfl rfl
  | wDeqS l₁ l₂ t q hw hq =>
      obtain ⟨hu, ht, hr, hp, hsup⟩ := h
      refine ⟨?_, ?_, hr, hp, hsup⟩
      · show s.unfinished = q.length + inflight (l₁ ++ .exec t :: l₂)
        rw [hw, hq] at hu
        rw [inflight_split] at hu ⊢
        simp [wBusy] at hu ⊢
        omega
      · show ((buildQueue inp.funcs inp.argsL inp.kwargsL).1 :
            Multiset TaskD) =
          (q : Multiset TaskD) +
            (heldUnexec (l₁ ++ .exec t :: l₂) : Multiset TaskD) +
            (s.execLog : Multiset TaskD)
        rw [hw, hq] at ht
        rw [heldUnexec_split] at ht ⊢
        simp only [wHeld, Option.toList] at ht ⊢
        simp only [← Multiset.coe_add, ← Multiset.cons_coe,
          ← Multiset.singleton_add] at ht ⊢
        rw [ht]
        abel
  | wExecOk l₁ l₂ t hw hr =>
      obtain ⟨hu, ht, hrec, hp, hsup⟩ := h
      refine ⟨?_, ?_, ?_, hp, hsup⟩
      · show s.unfinished = s.queue.length +
          inflight (l₁ ++ .markDone t :: l₂)
        rw [hw] at hu
        rw [inflight_split] at hu ⊢
        simpa [wBusy] using hu
      · show ((buildQueue inp.funcs inp.argsL inp.kwargsL).1 :
            Multiset TaskD) =
          (s.queue : Multiset TaskD) +
            (heldUnexec (l₁ ++ .markDone t :: l₂) : Multiset TaskD) +
            ((s.execLog ++ [t] : List TaskD) : Multiset TaskD)
        rw [hw] at ht
        rw [heldUnexec_split] at ht ⊢
        simp only [wHeld, Option.toList] at ht ⊢
        simp only [← Multiset.coe_add, ← Multiset.cons_coe,
          ← Multiset.singleton_add] at ht ⊢
        rw [ht]
        abel
      · show s.recLog = (s.execLog ++ [t]).filterMap runTaskD
        rw [List.filterMap_append]
        simp [List.filterMap_cons, hr]
        exact hrec
  | wExecFail l₁ l₂ t e hw hr =>
      obtain ⟨hu, ht, hrec, hp, hsup⟩ := h
      have hbusy : s.unfinished ≠ 0 := by
        rw [hw, inflight_split] at hu
        simp [wBusy] at hu
        omega
      refine ⟨?_, ?_, ?_, ?_, ?_⟩
      · show s.unfinished = s.queue.length +
          inflight (l₁ ++ .markDone t :: l₂)
        rw [hw] at hu
        rw [inflight_split] at hu ⊢
        simpa [wBusy] using hu
      · show ((buildQueue inp.funcs inp.argsL inp.kwargsL).1 :
            Multiset TaskD) =
          (s.queue : Multiset TaskD) +
            (heldUnexec (l₁ ++ .markDone t :: l₂) : Multiset TaskD) +
            ((s.execLog ++ [t] : List TaskD) : Multiset TaskD)
        rw [hw] at ht
        rw [heldUnexec_split] at ht ⊢
        simp only [wHeld, Option.toList] at ht ⊢
        simp only [← Multiset.coe_add, ← Multiset.cons_coe,
          ← Multiset.singleton_add] at ht ⊢
        rw [ht]
        abel
      · show s.recLog ++ [e] = (s.execLog ++ [t]).filterMap runTaskD
        rw [List.filterMap_append]
        simp [List.filterMap_cons, hr]
        exact hrec
      · show s.popped ++ (s.excs ++ [e]) = s.recLog ++ [e]
        rw [← List.append_assoc, hp]
      · show supOk (vErrs inp) s.sup s.popped s.unfinished (s.excs ++ [e])
        match hsv : s.sup with
        | .spawn _ => rw [hsv] at hsup; exact hsup
        | .lenChk => rw [hsv] at hsup; exact hsup
        | .poll => rw [hsv] at hsup; exact hsup
        | .check => rw [hsv] at hsup; exact hsup
        | .fin none => rw [hsv] at hsup; exact hsup
        | .fin (some e0) => rw [hsv] at hsup; exact hsup
        | .joinPh e0 => rw [hsv] at hsup; exact hsup
        | .termd none =>
            rw [hsv] at hsup
            exact absurd hsup.2.1 hbusy
        | .termd (some e0) => rw [hsv] at hsup; exact hsup
  | wDone l₁ l₂ t hw =>
      obtain ⟨hu, ht, hr, hp, hsup⟩ := h
      refine ⟨?_, ?_, hr, hp, supOk_sub_one hsup⟩
      · show s.unfinished - 1 = s.queue.length +
          inflight (l₁ ++ .atHead :: l₂)
        rw [hw] at hu
        rw [inflight_split] at hu ⊢
        simp [wBusy] at hu ⊢
        omega
      · show ((buildQueue inp.funcs inp.argsL inp.kwargsL).1 :
            Multiset TaskD) =
          (s.queue : Multiset TaskD) +
            (heldUnexec (l₁ ++ .atHead :: l₂) : Multiset TaskD) +
            (s.execLog : Multiset TaskD)
        rw [hw] at ht
        rw [heldUnexec_split] at ht ⊢
        simpa [wHeld, Option.toList] using ht
  | sSpawn l₁ l₂ hs hw =>
      obtain ⟨hu, ht, hr, hp, hsup⟩ := h
      rw [hs] at hsup
      refine ⟨?_, ?_, hr, hp, hsup⟩
      · show s.unfinished = s.queue.length + inflight (l₁ ++ .atHead :: l₂)
        rw [hw] at hu
        rw [inflight_split] at hu ⊢
        simpa [wBusy] using hu
      · show ((buildQueue inp.funcs inp.argsL inp.kwargsL).1 :
            Multiset TaskD) =
          (s.queue : Multiset TaskD) +
            (heldUnexec (l₁ ++ .atHead :: l₂) : Multiset TaskD) +
            (s.execLog : Multiset TaskD)
        rw [hw] at ht
        rw [heldUnexec_split] at ht ⊢
        simpa [wHeld, Option.toList] using ht
  | sSpawnDone k hs hk =>
      obtain ⟨hu, ht, hr, hp, hsup⟩ := h
      rw [hs] at hsup
      exact ⟨hu, ht, hr, hp, hsup⟩
  | sLenBad hs hb =>
      obtain ⟨hu, ht, hr, hp, hsup⟩ := h
      rw [hs] at hsup
      refine ⟨hu, ht, hr, hp, Or.inr ⟨hsup, ?_⟩⟩
      unfold vErrs
      refine List.mem_append_right _ ?_
      rw [if_pos hb]
      exact List.mem_cons_self _ _
  | sLenOk hs hb =>
      obtain ⟨hu, ht, hr, hp, hsup⟩ := h
      rw [hs] at hsup
      exact ⟨hu, ht, hr, hp, hsup⟩
  | sPollZ hs hu0 =>
      obtain ⟨hu, ht, hr, hp, hsup⟩ := h
      rw [hs] at hsup
      exact ⟨hu, ht, hr, hp, hsup, hu0⟩
  | sPollP hs hu0 =>
      obtain ⟨hu, ht, hr, hp, hsup⟩ := h
      rw [hs] at hsup
      exact ⟨hu, ht, hr, hp, hsup⟩
  | sChkPop e es hs he =>
      obtain ⟨hu, ht, hr, hp, hsup⟩ := h
      rw [hs] at hsup
      rw [he] at hp
      refine ⟨hu, ht, hr, ?_, ?_⟩
      · show s.popped ++ [e] ++ es = s.recLog
        rw [List.append_assoc]
        simpa using hp
      · show supOk (vErrs inp) (.fin (some e)) (s.popped ++ [e])
          s.unfinished es
        rw [hsup]
        exact Or.inl rfl
  | sChkEmpty hs he =>
      obtain ⟨hu, ht, hr, hp, hsup⟩ := h
      rw [hs] at hsup
      exact ⟨hu, ht, hr, hp, hsup⟩
  | sFinPop p e es hs he =>
      obtain ⟨hu, ht, hr, hp, hsup⟩ := h
      rw [hs] at hsup
      rw [he] at hp
      refine ⟨hu, ht, hr, ?_, ?_⟩
      · show s.popped ++ [e] ++ es = s.recLog
        rw [List.append_assoc]
        simpa using hp
      · show supOk (vErrs inp) (.joinPh e) (s.popped ++ [e]) s.unfinished es
        cases p with
        | none =>
            rw [hsup.1]
            exact Or.inl rfl
        | some e0 =>
            rcases hsup with h1 | h1
            · rw [h1]
              exact Or.inr ⟨e0, rfl⟩
            · rw [h1.1]
              exact Or.inl rfl
  | sFinEmpty p hs he =>
      obtain ⟨hu, ht, hr, hp, hsup⟩ := h
      rw [hs] at hsup
      refine ⟨hu, ht, hr, hp, ?_⟩
      show supOk (vErrs inp) (.termd p) s.popped s.unfinished s.excs
      cases p with
      | none => exact ⟨hsup.1, hsup.2, he⟩
      | some e =>
          rcases hsup with h1 | h1
          · exact Or.inl (Or.inl h1)
          · exact Or.inr h1
  | sJoinAll e hs hj =>
      obtain ⟨hu, ht, hr, hp, hsup⟩ := h
      rw [hs] at hsup
      refine ⟨hu, ht, hr, hp, ?_⟩
      show supOk (vErrs inp) (.termd (some e)) s.popped s.unfinished s.excs
      rcases hsup with h1 | ⟨e1, h1⟩
      · exact Or.inl (Or.inl h1)
      · exact Or.inl (Or.inr ⟨e1, h1⟩)
  | sJoinTO e hs =>
      obtain ⟨hu, ht, hr, hp, hsup⟩ := h
      rw [hs] at hsup
      refine ⟨hu, ht, hr, hp, ?_⟩
      show supOk (vErrs inp) (.termd (some e)) s.popped s.unfinished s.excs
      rcases hsup with h1 | ⟨e1, h1⟩
      · exact Or.inl (Or.inl h1)
      · exact Or.inl (Or.inr ⟨e1, h1⟩)

/-- The global invariant holds in every reachable state. -/
theorem Inv_reach {inp : Input} {s : SysState}
    (htr : Trace (cfgOf inp) (initState inp) s) : Inv inp s := by
  induction htr with
  | refl => exact Inv_init inp
  | tail h1 h2 ih => exact Inv_step ih h2

end DbmpUtils

namespace DbmpUtils

/-- With a clean enqueue and a passing length check, no validation error
can arise. -/
theorem vErrs_nil {inp : Input}
    (hb : (buildQueue inp.funcs inp.argsL inp.kwargsL).2 = none)
    (hl : ¬ lenBad (cfgOf inp)) : vErrs inp = [] := by
  unfold vErrs
  rw [hb, if_neg hl]
  rfl

/-- A pool with zero in-flight tasks holds no dequeued task. -/
theorem heldUnexec_nil_of_inflight_zero {ws : List WState}
    (h : inflight ws = 0) : heldUnexec ws = [] := by
  rw [heldUnexec, List.filterMap_eq_nil_iff]
  intro w hw
  have hb := List.countP_eq_zero.mp h w hw
  cases w with
  | exec t => exact absurd rfl hb
  | markDone t => rfl
  | unspawned => rfl
  | atHead => rfl
  | deq => rfl
  | exited => rfl

/-- Every executed task comes from the built queue (as multisets). -/
theorem execLog_le {inp : Input} {s : SysState} (h : Inv inp s) :
    (s.execLog : Multiset TaskD) ≤
      ((buildQueue inp.funcs inp.argsL inp.kwargsL).1 : Multiset TaskD) := by
  rw [h.tasks]
  exact Multiset.le_add_left _ _

/-- Every recorded failure is a failure of some task of the built queue
(as multisets of exception identities). -/
theorem recLog_le {inp : Input} {s : SysState} (h : Inv inp s) :
    (s.recLog : Multiset Err) ≤
      ((buildQueue inp.funcs inp.argsL inp.kwargsL).1.filterMap runTaskD :
        Multiset Err) := by
  rw [h.recs, ← Multiset.filterMap_coe, ← Multiset.filterMap_coe]
  exact Multiset.filterMap_le_filterMap _ (execLog_le h)

/-- In a validation-free terminated invocation, the raised error is the
last failure the supervisor consumed, and the consumed failures are the
first one or two recorded ones. -/
theorem terminal_popped {inp : Input} {s : SysState} (h : Inv inp s)
    (hv : vErrs inp = []) {e : Err} (ht : s.sup = SupState.termd (some e)) :
    s.popped = [e] ∨ ∃ e1, s.popped = [e1, e] := by
  have hsup := h.supInv
  rw [ht] at hsup
  rcases hsup with h1 | h1
  · exact h1
  · rw [hv] at h1
    cases h1.2

/-- C3 (claim theorem): in a validation-free invocation whose built
queue contains exactly one failing task, failing with `E`, every
terminated run of `run_threads` raises an error identical in kind and
message to `E` — success is impossible and no other error is raised. -/
theorem C3_single_failure_raised (inp : Input) (E : Err)
    (hb : (buildQueue inp.funcs inp.argsL inp.kwargsL).2 = none)
    (hl : ¬ lenBad (cfgOf inp))
    (hf : (buildQueue inp.funcs inp.argsL inp.kwargsL).1.filterMap runTaskD
      = [E])
    {s : SysState} (htr : Trace (cfgOf inp) (initState inp) s)
    {o : Option Err} (ht : s.sup = SupState.termd o) : o = some E := by
  have h := Inv_reach htr
  have hv := vErrs_nil hb hl
  have hrecle : (s.recLog : Multiset Err) ≤ ([E] : List Err) := by
    rw [← hf]
    exact recLog_le h
  cases o with
  | some e =>
      have hpe : e ∈ s.popped := by
        rcases terminal_popped h hv ht with h1 | ⟨e1, h1⟩ <;> rw [h1] <;> simp
      have hmem : e ∈ s.recLog := by
        rw [← h.pops]
        exact List.mem_append_left _ hpe
      have hmE : e ∈ ([E] : List Err) := by
        have : e ∈ (([E] : List Err) : Multiset Err) :=
          Multiset.mem_of_le hrecle (Multiset.mem_coe.mpr hmem)
        exact Multiset.mem_coe.mp this
      rw [List.mem_singleton.mp hmE]
  | none =>
      exfalso
      have hsup := h.supInv
      rw [ht] at hsup
      obtain ⟨hp0, hu0, he0⟩ := hsup
      have hrl : s.recLog = [] := by
        rw [← h.pops, hp0, he0]
        rfl
      have hq0 : s.queue = [] := by
        have hu := h.unf
        rw [hu0] at hu
        exact List.length_eq_zero.mp (by omega)
      have hi0 : inflight s.workers = 0 := by
        have hu := h.unf
        rw [hu0] at hu
        omega
      have hperm :
          ((buildQueue inp.funcs inp.argsL inp.kwargsL).1 :
            Multiset TaskD) = (s.execLog : Multiset TaskD) := by
        rw [h.tasks, hq0, heldUnexec_nil_of_inflight_zero hi0]
        simp
      have : (([E] : List Err) : Multiset Err) = (s.recLog : Multiset Err) := by
        rw [← hf, h.recs, ← Multiset.filterMap_coe, ← Multiset.filterMap_coe,
          hperm]
      rw [hrl] at this
      simp at this

/-- C4 (claim theorem): in a validation-free invocation all of whose
built tasks succeed, every terminated run of `run_threads` returned
success, executed exactly the built task descriptors — each exactly once
with its paired arguments (the executed multiset is a permutation of the
built queue) — and left the queue with zero outstanding tasks. -/
theorem C4_all_success (inp : Input)
    (hb : (buildQueue inp.funcs inp.argsL inp.kwargsL).2 = none)
    (hl : ¬ lenBad (cfgOf inp))
    (hok : ∀ td ∈ (buildQueue inp.funcs inp.argsL inp.kwargsL).1,
      runTaskD td = none)
    {s : SysState} (htr : Trace (cfgOf inp) (initState inp) s)
    (hterm : Terminal s) :
    s.sup = SupState.termd none ∧
    s.execLog.Perm (buildQueue inp.funcs inp.argsL inp.kwargsL).1 ∧
    s.unfinished = 0 ∧ s.queue = [] := by
  have h := Inv_reach htr
  have hv := vErrs_nil hb hl
  have hrl : s.recLog = [] := by
    rw [h.recs, List.filterMap_eq_nil_iff]
    intro td htd
    refine hok td ?_
    have : td ∈ ((buildQueue inp.funcs inp.argsL inp.kwargsL).1 :
        Multiset TaskD) :=
      Multiset.mem_of_le (execLog_le h) (Multiset.mem_coe.mpr htd)
    exact Multiset.mem_coe.mp this
  obtain ⟨o, ho⟩ := hterm
  cases o with
  | some e =>
      exfalso
      have hpe : e ∈ s.popped := by
        rcases terminal_popped h hv ho with h1 | ⟨e1, h1⟩ <;> rw [h1] <;> simp
      have hmem : e ∈ s.recLog := by
        rw [← h.pops]
        exact List.mem_append_left _ hpe
      rw [hrl] at hmem
      cases hmem
  | none =>
      have hsup := h.supInv
      rw [ho] at hsup
      obtain ⟨hp0, hu0, he0⟩ := hsup
      have hq0 : s.queue = [] := by
        have hu := h.unf
        rw [hu0] at hu
        exact List.length_eq_zero.mp (by omega)
      have hi0 : inflight s.workers = 0 := by
        have hu := h.unf
        rw [hu0] at hu
        omega
      have hperm :
          ((buildQueue inp.funcs inp.argsL inp.kwargsL).1 :
            Multiset TaskD) = (s.execLog : Multiset TaskD) := by
        rw [h.tasks, hq0, heldUnexec_nil_of_inflight_zero hi0]
        simp
      exact ⟨ho, (Multiset.coe_eq_coe.mp hperm).symm, hu0, hq0⟩

/-- C1 (amended theorem): in a validation-free invocation, the error a
terminated `run_threads` raises is always a recorded task failure, but
not necessarily the first: it is the first recorded failure when the
supervisor consumed only one, and the second recorded failure when the
polling loop consumed the first and the cleanup in the `finally` block
found a second one — which then replaces the first as the error the
caller sees. -/
theorem C1_raised_is_first_or_second (inp : Input)
    (hb : (buildQueue inp.funcs inp.argsL inp.kwargsL).2 = none)
    (hl : ¬ lenBad (cfgOf inp))
    {s : SysState} (htr : Trace (cfgOf inp) (initState inp) s)
    {e : Err} (ht : s.sup = SupState.termd (some e)) :
    e ∈ s.recLog ∧ (s.recLog[0]? = some e ∨ s.recLog[1]? = some e) := by
  have h := Inv_reach htr
  have hv := vErrs_nil hb hl
  rcases terminal_popped h hv ht with h1 | ⟨e1, h1⟩
  · have hrec : s.recLog = e :: s.excs := by
      rw [← h.pops, h1]
      rfl
    rw [hrec]
    exact ⟨List.mem_cons_self _ _, Or.inl (by simp)⟩
  · have hrec : s.recLog = e1 :: e :: s.excs := by
      rw [← h.pops, h1]
      rfl
    rw [hrec]
    exact ⟨List.mem_cons_of_mem _ (List.mem_cons_self _ _), Or.inr (by simp)⟩

end DbmpUtils

namespace DbmpUtils

/-- Prefix a step onto a trace. -/
theorem tstep {c : Cfg} {a b d : SysState} (h1 : Step c a b)
    (h2 : Trace c b d) : Trace c a d :=
  Relation.ReflTransGen.head h1 h2

/-- The empty trace. -/
theorem tnil {c : Cfg} {a : SysState} : Trace c a a :=
  Relation.ReflTransGen.refl

/-- A concrete callable that always raises `e`. -/
def failFunc (e : Err) : Func := ⟨9, fun _ _ => some e⟩

/-- The first failure of the C1 counterexample. -/
def e1c : Err := ⟨"RuntimeError", "first"⟩

/-- The second failure of the C1 counterexample. -/
def e2c : Err := ⟨"RuntimeError", "second"⟩

/-- Task descriptor of the first failing callable. -/
def t1c : TaskD := ⟨.callable (failFunc e1c), .cellFill, []⟩

/-- Task descriptor of the second failing callable. -/
def t2c : TaskD := ⟨.callable (failFunc e2c), .cellFill, []⟩

/-- The C1 counterexample invocation: two failing callables, two
workers. -/
def inp1 : Input := ⟨[failFunc e1c, failFunc e2c], [], [], 2⟩

/-- Final state of the C1 counterexample trace. -/
def fin1 : SysState :=
  ⟨[], 0, [], false, [WState.exited, WState.exited],
   SupState.termd (some e2c), [t1c, t2c], [e1c, e2c], [e1c, e2c]⟩

/-- C1 (counterexample): an invocation in which two task callables
raise, the first recorded failure being `e1c`, yet the error
`run_threads` re-raises to the caller is the second failure `e2c`: the
polling loop consumes and raises the first failure, and the `finally`
block then pops the second one and its `raise_` replaces the first.
This refutes the claim that the first recorded failure is always the one
re-raised. -/
theorem C1_first_failure_replaced :
    Trace (cfgOf inp1) (initState inp1) fin1 ∧
    fin1.sup = SupState.termd (some e2c) ∧
    fin1.recLog = [e1c, e2c] ∧ e1c ≠ e2c := by
  refine ⟨?_, rfl, rfl, by decide⟩
  refine tstep (Step.sSpawn _ [] [WState.unspawned] rfl rfl) ?_
  refine tstep (Step.sSpawn _ [WState.atHead] [] rfl rfl) ?_
  refine tstep (Step.sSpawnDone _ 2 rfl (by decide)) ?_
  refine tstep (Step.sLenOk _ rfl (by decide)) ?_
  refine tstep (Step.wCheckT _ [] [WState.atHead] rfl rfl) ?_
  refine tstep (Step.wDeqS _ [] [WState.atHead] t1c [t2c] rfl rfl) ?_
  refine tstep (Step.wCheckT _ [WState.exec t1c] [] rfl rfl) ?_
  refine tstep (Step.wDeqS _ [WState.exec t1c] [] t2c [] rfl rfl) ?_
  refine tstep (Step.wExecFail _ [] [WState.exec t2c] t1c e1c rfl rfl) ?_
  refine tstep (Step.sPollP _ rfl (by decide)) ?_
  refine tstep (Step.sChkPop _ e1c [] rfl rfl) ?_
  refine tstep
    (Step.wExecFail _ [WState.markDone t1c] [] t2c e2c rfl rfl) ?_
  refine tstep (Step.sFinPop _ (some e1c) e2c [] rfl rfl) ?_
  refine tstep (Step.wDone _ [] [WState.markDone t2c] t1c rfl) ?_
  refine tstep (Step.wCheckF _ [] [WState.markDone t2c] rfl rfl) ?_
  refine tstep (Step.wDone _ [WState.exited] [] t2c rfl) ?_
  refine tstep (Step.wCheckF _ [WState.exited] [] rfl rfl) ?_
  refine tstep (Step.sJoinAll _ e2c rfl ?_) tnil
  intro w hw
  rcases List.mem_cons.mp hw with h | h
  · exact h
  · exact List.mem_singleton.mp h

end DbmpUtils


namespace DbmpUtils

/-- The C5 counterexample invocation: no callables, one positional
argument set, one worker — `funcs` is shorter than `args_list`. -/
def inp5 : Input := ⟨[], [ArgsEntry.aSeq []], [], 1⟩

/-- The descriptor the C5 counterexample enqueues: the `zip_longest`
fill `{}` in the function slot, paired with the supplied argument set. -/
def t5c : TaskD := ⟨.fillDict, .cellSeq [], []⟩

/-- Final state of the C5 counterexample trace. -/
def fin5 : SysState :=
  ⟨[], 0, [], false, [WState.exited], SupState.termd (some typeErr),
   [t5c], [typeErr], [typeErr]⟩

/-- C5 (counterexample): with `funcs` shorter than `args_list`, the
length-check `ValueError` is not raised before any worker starts: the
workers are spawned first, a task (with the non-callable fill `{}` in
its function slot) is dequeued and executed before the check runs, and
in this interleaving the caller does not even see the `ValueError` —
the worker's `TypeError` replaces it in the `finally` block.  This
refutes both "this validation failure occurs before any worker starts"
and "so no task is executed". -/
theorem C5_validation_not_before_workers :
    Trace (cfgOf inp5) (initState inp5) fin5 ∧
    fin5.sup = SupState.termd (some typeErr) ∧
    fin5.execLog = [t5c] ∧ typeErr ≠ lenErr := by
  refine ⟨?_, rfl, rfl, by decide⟩
  refine tstep (Step.sSpawn _ [] [] rfl rfl) ?_
  refine tstep (Step.sSpawnDone _ 1 rfl (by decide)) ?_
  refine tstep (Step.wCheckT _ [] [] rfl rfl) ?_
  refine tstep (Step.wDeqS _ [] [] t5c [] rfl rfl) ?_
  refine tstep (Step.wExecFail _ [] [] t5c typeErr rfl rfl) ?_
  refine tstep (Step.sLenBad _ rfl (by decide)) ?_
  refine tstep (Step.sFinPop _ (some lenErr) typeErr [] rfl rfl) ?_
  refine tstep (Step.wDone _ [] [] t5c rfl) ?_
  refine tstep (Step.wCheckF _ [] [] rfl rfl) ?_
  refine tstep (Step.sJoinAll _ typeErr rfl ?_) tnil
  intro w hw
  exact List.mem_singleton.mp hw

/-- Whether a worker thread has not been started yet. -/
def isUnspawned : WState → Bool
  | .unspawned => true
  | _ => false

/-- Spawn-phase bookkeeping: while the supervisor is at iteration `k` of
the spawn loop, at most `max_workers − k` threads remain unstarted; once
the spawn loop is over (every later supervisor phase), every thread has
been started. -/
def spawnOk (sup : SupState) (ws : List WState) : Prop :=
  match sup with
  | .spawn k => ws.countP isUnspawned ≤ ws.length - k
  | _ => WState.unspawned ∉ ws

/-- A worker step (which never touches an unstarted thread) preserves
the spawn-phase bookkeeping. -/
theorem spawnOk_worker {sup : SupState} {ws : List WState}
    {l₁ l₂ : List WState} {w w' : WState} (h : spawnOk sup ws)
    (hw : ws = l₁ ++ w :: l₂) (hwu : isUnspawned w = false)
    (hwu' : isUnspawned w' = false) : spawnOk sup (l₁ ++ w' :: l₂) := by
  subst hw
  have hold : WState.unspawned ∉ l₁ ++ w :: l₂ →
      WState.unspawned ∉ l₁ ++ w' :: l₂ := by
    intro hno hmem
    rcases List.mem_append.mp hmem with h1 | h1
    · exact hno (List.mem_append_left _ h1)
    · rcases List.mem_cons.mp h1 with h2 | h2
      · rw [← h2] at hwu'
        cases hwu'
      · exact hno (List.mem_append_right _ (List.mem_cons_of_mem _ h2))
  cases sup with
  | spawn k =>
      replace h : (l₁ ++ w :: l₂).countP isUnspawned ≤
        (l₁ ++ w :: l₂).length - k := h
      show (l₁ ++ w' :: l₂).countP isUnspawned ≤
        (l₁ ++ w' :: l₂).length - k
      rw [List.countP_append, List.countP_cons] at h ⊢
      rw [List.length_append, List.length_cons] at h ⊢
      simp [hwu] at h
      simp [hwu']
      omega
  | lenChk => exact hold h
  | poll => exact hold h
  | check => exact hold h
  | fin p => exact hold h
  | joinPh e => exact hold h
  | termd o => exact hold h

/-- Spawn-phase bookkeeping is preserved by every step. -/
theorem spawnOk_step {c : Cfg} {s s' : SysState}
    (h : spawnOk s.sup s.workers) (hst : Step c s s') :
    spawnOk s'.sup s'.workers := by
  cases hst with
  | wCheckT l₁ l₂ hw hk => exact spawnOk_worker h hw rfl rfl
  | wCheckF l₁ l₂ hw hk => exact spawnOk_worker h hw rfl rfl
  | wDeqS l₁ l₂ t q hw hq => exact spawnOk_worker h hw rfl rfl
  | wDeqE l₁ l₂ hw hq => exact spawnOk_worker h hw rfl rfl
  | wExecOk l₁ l₂ t hw hr => exact spawnOk_worker h hw rfl rfl
  | wExecFail l₁ l₂ t e hw hr => exact spawnOk_worker h hw rfl rfl
  | wDone l₁ l₂ t hw => exact spawnOk_worker h hw rfl rfl
  | sSpawn l₁ l₂ hs hw =>
      rw [hs, hw] at h
      replace h : (l₁ ++ WState.unspawned :: l₂).countP isUnspawned ≤
        (l₁ ++ WState.unspawned :: l₂).length - l₁.length := h
      show (l₁ ++ WState.atHead :: l₂).countP isUnspawned ≤
        (l₁ ++ WState.atHead :: l₂).length - (l₁.length + 1)
      rw [List.countP_append, List.countP_cons] at h ⊢
      rw [List.length_append, List.length_cons] at h ⊢
      simp [isUnspawned] at h ⊢
      omega
  | sSpawnDone k hs hk =>
      rw [hs] at h
      replace h : s.workers.countP isUnspawned ≤ s.workers.length - k := h
      show WState.unspawned ∉ s.workers
      intro hmem
      have h0 : s.workers.countP isUnspawned = 0 := by omega
      have := List.countP_eq_zero.mp h0 _ hmem
      exact this rfl
  | sLenBad hs hb => rw [hs] at h; exact h
  | sLenOk hs hb => rw [hs] at h; exact h
  | sPollZ hs hu => rw [hs] at h; exact h
  | sPollP hs hu => rw [hs] at h; exact h
  | sChkPop e es hs he => rw [hs] at h; exact h
  | sChkEmpty hs he => rw [hs] at h; exact h
  | sFinPop p e es hs he => rw [hs] at h; exact h
  | sFinEmpty p hs he => rw [hs] at h; exact h
  | sJoinAll e hs hj => rw [hs] at h; exact h
  | sJoinTO e hs => rw [hs] at h; exact h

/-- With a mismatched length check ahead, the supervisor can never enter
the polling loop nor fall through the `try` body normally: whatever it
eventually reports is an error. -/
def noSuccess (sup : SupState) : Prop :=
  sup ≠ SupState.poll ∧ sup ≠ SupState.check ∧
  (∀ p, sup = SupState.fin p → p.isSome) ∧
  (∀ o, sup = SupState.termd o → o.isSome)

/-- `noSuccess` holds at any spawn-phase supervisor state. -/
theorem noSuccess_spawn (k : Nat) : noSuccess (SupState.spawn k) :=
  ⟨fun hc => (nomatch hc), fun hc => (nomatch hc),
   fun _ hc => (nomatch hc), fun _ hc => (nomatch hc)⟩

/-- `noSuccess` holds at the length-check supervisor state. -/
theorem noSuccess_lenChk : noSuccess SupState.lenChk :=
  ⟨fun hc => (nomatch hc), fun hc => (nomatch hc),
   fun _ hc => (nomatch hc), fun _ hc => (nomatch hc)⟩

/-- `noSuccess` holds at the join phase. -/
theorem noSuccess_joinPh (e : Err) : noSuccess (SupState.joinPh e) :=
  ⟨fun hc => (nomatch hc), fun hc => (nomatch hc),
   fun _ hc => (nomatch hc), fun _ hc => (nomatch hc)⟩

/-- `noSuccess` holds at `fin (some e)`. -/
theorem noSuccess_finSome (e : Err) : noSuccess (SupState.fin (some e)) :=
  ⟨fun hc => (nomatch hc), fun hc => (nomatch hc),
   fun p hc => by injection hc with h; rw [← h]; rfl,
   fun _ hc => (nomatch hc)⟩

/-- `noSuccess` holds at `termd (some e)`. -/
theorem noSuccess_termdSome (e : Err) :
    noSuccess (SupState.termd (some e)) :=
  ⟨fun hc => (nomatch hc), fun hc => (nomatch hc),
   fun _ hc => (nomatch hc),
   fun o hc => by injection hc with h; rw [← h]; rfl⟩

/-- `noSuccess` is preserved by every step when the length check is
doomed to fail. -/
theorem noSuccess_step {inp : Input} (hlb : lenBad (cfgOf inp))
    {s s' : SysState} (h : noSuccess s.sup)
    (hst : Step (cfgOf inp) s s') : noSuccess s'.sup := by
  cases hst with
  | wCheckT l₁ l₂ hw hk => exact h
  | wCheckF l₁ l₂ hw hk => exact h
  | wDeqS l₁ l₂ t q hw hq => exact h
  | wDeqE l₁ l₂ hw hq => exact h
  | wExecOk l₁ l₂ t hw hr => exact h
  | wExecFail l₁ l₂ t e hw hr => exact h
  | wDone l₁ l₂ t hw => exact h
  | sSpawn l₁ l₂ hs hw => exact noSuccess_spawn _
  | sSpawnDone k hs hk => exact noSuccess_lenChk
  | sLenBad hs hb => exact noSuccess_finSome _
  | sLenOk hs hb => exact absurd hlb hb
  | sPollZ hs hu => exact absurd hs h.1
  | sPollP hs hu => exact absurd hs h.1
  | sChkPop e es hs he => exact absurd hs h.2.1
  | sChkEmpty hs he => exact absurd hs h.2.1
  | sFinPop p e es hs he => exact noSuccess_joinPh _
  | sFinEmpty p hs he =>
      refine ⟨fun hc => (nomatch hc), fun hc => (nomatch hc),
        fun p' hc => (nomatch hc), fun o hc => ?_⟩
      injection hc with h2
      rw [← h2]
      exact h.2.2.1 p hs
  | sJoinAll e hs hj => exact noSuccess_termdSome _
  | sJoinTO e hs => exact noSuccess_termdSome _

/-- C5 (amended theorem): when the list of functions is shorter than
`args_list` or `kwargs_list` (and the enqueue loop itself raises
nothing), `run_threads` never returns success — every terminated state
raised some error — but the validation does not precede the workers:
the length check runs only once the spawn loop has started every worker
thread, so already-enqueued tasks may execute before the error is
raised. -/
theorem C5_length_mismatch_error_after_spawn (inp : Input)
    (hb : (buildQueue inp.funcs inp.argsL inp.kwargsL).2 = none)
    (hlb : lenBad (cfgOf inp)) {s : SysState}
    (htr : Trace (cfgOf inp) (initState inp) s) :
    (∀ o, s.sup = SupState.termd o → o.isSome) ∧
    (s.sup = SupState.lenChk → WState.unspawned ∉ s.workers) := by
  have hno : noSuccess s.sup := by
    induction htr with
    | refl =>
        rw [initState_ok hb]
        exact noSuccess_spawn 0
    | tail h1 h2 ih => exact noSuccess_step hlb ih h2
  have hsp : spawnOk s.sup s.workers := by
    clear hno
    induction htr with
    | refl =>
        rw [initState_ok hb]
        show (List.replicate inp.maxWorkers WState.unspawned).countP
            isUnspawned ≤
          (List.replicate inp.maxWorkers WState.unspawned).length - 0
        have := @List.countP_le_length WState isUnspawned
          (List.replicate inp.maxWorkers WState.unspawned)
        simpa using this
    | tail h1 h2 ih => exact spawnOk_step ih h2
  refine ⟨hno.2.2.2, fun hl => ?_⟩
  rw [hl] at hsp
  exact hsp

/-- Final state of the C5 witness trace (terminated with the length
`ValueError`). -/
def fin5b : SysState :=
  ⟨[t5c], 1, [], true, [WState.atHead], SupState.termd (some lenErr),
   [], [], []⟩

/-- The state of the C5 witness at the length check. -/
def mid5 : SysState :=
  ⟨[t5c], 1, [], true, [WState.atHead], SupState.lenChk, [], [], []⟩

/-- Witness for the amended C5 at `inp5`: its hypotheses hold, a
terminated run raised an error (`isSome`), and at the length check every
worker thread had been started. -/
theorem C5_length_mismatch_error_after_spawn_witness :
    (buildQueue inp5.funcs inp5.argsL inp5.kwargsL).2 = none ∧
    lenBad (cfgOf inp5) ∧
    (some lenErr).isSome = true ∧
    WState.unspawned ∉ mid5.workers := by
  have htr1 : Trace (cfgOf inp5) (initState inp5) mid5 := by
    refine tstep (Step.sSpawn _ [] [] rfl rfl) ?_
    exact tstep (Step.sSpawnDone _ 1 rfl (by decide)) tnil
  have htr2 : Trace (cfgOf inp5) (initState inp5) fin5b := by
    refine tstep (Step.sSpawn _ [] [] rfl rfl) ?_
    refine tstep (Step.sSpawnDone _ 1 rfl (by decide)) ?_
    refine tstep (Step.sLenBad _ rfl (by decide)) ?_
    exact tstep (Step.sFinEmpty _ (some lenErr) rfl rfl) tnil
  refine ⟨rfl, by decide, ?_, ?_⟩
  · exact (C5_length_mismatch_error_after_spawn inp5 rfl (by decide)
      htr2).1 (some lenErr) rfl
  · exact (C5_length_mismatch_error_after_spawn inp5 rfl (by decide)
      htr1).2 rfl

end DbmpUtils

namespace DbmpUtils

/-- The C2 failing input: a single succeeding callable, one worker. -/
def inp2 : Input := ⟨[okFunc], [], [], 1⟩

/-- The single task of the C2 failing input. -/
def t2s : TaskD := ⟨.callable okFunc, .cellFill, []⟩

/-- Final state of the C2 trace: `run_threads` returned success while
its worker thread is still running (at its loop head, never joined). -/
def fin2 : SysState :=
  ⟨[], 0, [], true, [WState.atHead], SupState.termd none, [t2s], [], []⟩

/-- C2 (evaluation at the failing input): on normal completion the
`finally` block's `exceptions.get` raises `queue.Empty`, the handler
passes, and `run_threads` returns WITHOUT joining any thread — here it
has returned success while its only worker is still running (not
`exited`).  Moreover the join loop is structurally tied to an exception:
any step out of the join phase raises that exception, so a successful
return can never have waited on the workers.  This contradicts the
code's own comments ("Ensure all threads will exit regardless of the
current state of the main thread", "Join all threads to ensure we don't
continue without all threads stopping"). -/
theorem C2_returns_without_join :
    (Trace (cfgOf inp2) (initState inp2) fin2 ∧
      fin2.sup = SupState.termd none ∧
      fin2.workers = [WState.atHead] ∧ WState.exited ∉ fin2.workers) ∧
    (∀ s s' : SysState, ∀ e : Err, Step (cfgOf inp2) s s' →
      s.sup = SupState.joinPh e →
      s'.sup = SupState.joinPh e ∨ s'.sup = SupState.termd (some e)) := by
  constructor
  · refine ⟨?_, rfl, rfl, ?_⟩
    · refine tstep (Step.sSpawn _ [] [] rfl rfl) ?_
      refine tstep (Step.sSpawnDone _ 1 rfl (by decide)) ?_
      refine tstep (Step.sLenOk _ rfl (by decide)) ?_
      refine tstep (Step.wCheckT _ [] [] rfl rfl) ?_
      refine tstep (Step.wDeqS _ [] [] t2s [] rfl rfl) ?_
      refine tstep (Step.wExecOk _ [] [] t2s rfl rfl) ?_
      refine tstep (Step.wDone _ [] [] t2s rfl) ?_
      refine tstep (Step.sPollZ _ rfl rfl) ?_
      exact tstep (Step.sFinEmpty _ none rfl rfl) tnil
    · intro hmem
      rcases List.mem_singleton.mp hmem
  · intro s s' e hst hj
    cases hst with
    | wCheckT l₁ l₂ hw hk => exact Or.inl hj
    | wCheckF l₁ l₂ hw hk => exact Or.inl hj
    | wDeqS l₁ l₂ t q hw hq => exact Or.inl hj
    | wDeqE l₁ l₂ hw hq => exact Or.inl hj
    | wExecOk l₁ l₂ t hw hr => exact Or.inl hj
    | wExecFail l₁ l₂ t e' hw hr => exact Or.inl hj
    | wDone l₁ l₂ t hw => exact Or.inl hj
    | sSpawn l₁ l₂ hs hw => rw [hj] at hs; cases hs
    | sSpawnDone k hs hk => rw [hj] at hs; cases hs
    | sLenBad hs hb => rw [hj] at hs; cases hs
    | sLenOk hs hb => rw [hj] at hs; cases hs
    | sPollZ hs hu => rw [hj] at hs; cases hs
    | sPollP hs hu => rw [hj] at hs; cases hs
    | sChkPop e' es hs he => rw [hj] at hs; cases hs
    | sChkEmpty hs he => rw [hj] at hs; cases hs
    | sFinPop p e' es hs he => rw [hj] at hs; cases hs
    | sFinEmpty p hs he => rw [hj] at hs; cases hs
    | sJoinAll e' hs hj2 =>
        rw [hj] at hs
        injection hs with h2
        rw [h2]
        exact Or.inr rfl
    | sJoinTO e' hs =>
        rw [hj] at hs
        injection hs with h2
        rw [h2]
        exact Or.inr rfl

/-- The spec's Scenario-B style error. -/
def boomErr : Err := ⟨"Exception", "boom"⟩

/-- First task of the C3 witness (succeeds). -/
def tB1 : TaskD := ⟨.callable okFunc, .cellFill, []⟩

/-- Second task of the C3 witness (raises "boom"). -/
def tB2 : TaskD := ⟨.callable (failFunc boomErr), .cellFill, []⟩

/-- The C3 witness invocation: one succeeding and one failing callable,
one worker. -/
def inp3 : Input := ⟨[okFunc, failFunc boomErr], [], [], 1⟩

/-- Final state of the C3 witness trace. -/
def fin3 : SysState :=
  ⟨[], 0, [], false, [WState.exited], SupState.termd (some boomErr),
   [tB1, tB2], [boomErr], [boomErr]⟩

/-- Witness for C3 at `inp3`: exactly one task fails, with "boom", and a
terminated run raises exactly that error. -/
theorem C3_single_failure_raised_witness :
    (buildQueue inp3.funcs inp3.argsL inp3.kwargsL).2 = none ∧
    (buildQueue inp3.funcs inp3.argsL inp3.kwargsL).1.filterMap runTaskD
      = [boomErr] ∧
    (some boomErr : Option Err) = some boomErr := by
  have htr : Trace (cfgOf inp3) (initState inp3) fin3 := by
    refine tstep (Step.sSpawn _ [] [] rfl rfl) ?_
    refine tstep (Step.sSpawnDone _ 1 rfl (by decide)) ?_
    refine tstep (Step.sLenOk _ rfl (by decide)) ?_
    refine tstep (Step.wCheckT _ [] [] rfl rfl) ?_
    refine tstep (Step.wDeqS _ [] [] tB1 [tB2] rfl rfl) ?_
    refine tstep (Step.wExecOk _ [] [] tB1 rfl rfl) ?_
    refine tstep (Step.wDone _ [] [] tB1 rfl) ?_
    refine tstep (Step.wCheckT _ [] [] rfl rfl) ?_
    refine tstep (Step.wDeqS _ [] [] tB2 [] rfl rfl) ?_
    refine tstep (Step.wExecFail _ [] [] tB2 boomErr rfl rfl) ?_
    refine tstep (Step.wDone _ [] [] tB2 rfl) ?_
    refine tstep (Step.wCheckF _ [] [] rfl rfl) ?_
    refine tstep (Step.sPollZ _ rfl rfl) ?_
    refine tstep (Step.sFinPop _ none boomErr [] rfl rfl) ?_
    refine tstep (Step.sJoinAll _ boomErr rfl ?_) tnil
    intro w hw
    exact List.mem_singleton.mp hw
  exact ⟨rfl, rfl,
    C3_single_failure_raised inp3 boomErr rfl (by decide) rfl htr rfl⟩

/-- The C4 witness invocation: no tasks, one worker. -/
def inp4 : Input := ⟨[], [], [], 1⟩

/-- Final state of the C4 witness trace: returned success. -/
def fin4 : SysState :=
  ⟨[], 0, [], true, [WState.atHead], SupState.termd none, [], [], []⟩

/-- Witness for C4 at `inp4`: all (zero) tasks succeed and a terminated
run returned success with an empty queue, every built task executed
exactly once. -/
theorem C4_all_success_witness :
    (buildQueue inp4.funcs inp4.argsL inp4.kwargsL).2 = none ∧
    fin4.sup = SupState.termd none ∧
    fin4.execLog.Perm (buildQueue inp4.funcs inp4.argsL inp4.kwargsL).1 ∧
    fin4.unfinished = 0 := by
  have htr : Trace (cfgOf inp4) (initState inp4) fin4 := by
    refine tstep (Step.sSpawn _ [] [] rfl rfl) ?_
    refine tstep (Step.sSpawnDone _ 1 rfl (by decide)) ?_
    refine tstep (Step.sLenOk _ rfl (by decide)) ?_
    refine tstep (Step.sPollZ _ rfl rfl) ?_
    exact tstep (Step.sFinEmpty _ none rfl rfl) tnil
  have h := C4_all_success inp4 rfl (by decide)
    (fun td htd => absurd htd (List.not_mem_nil td)) htr ⟨none, rfl⟩
  exact ⟨rfl, h.1, h.2.1, h.2.2.1⟩

/-- The single failure of the C1-amended witness. -/
def eW1 : Err := ⟨"RuntimeError", "only"⟩

/-- Task of the C1-amended witness. -/
def tW1 : TaskD := ⟨.callable (failFunc eW1), .cellFill, []⟩

/-- The C1-amended witness invocation: a single failing callable, one
worker. -/
def inpW1 : Input := ⟨[failFunc eW1], [], [], 1⟩

/-- Final state of the C1-amended witness trace. -/
def finW1 : SysState :=
  ⟨[], 0, [], false, [WState.exited], SupState.termd (some eW1),
   [tW1], [eW1], [eW1]⟩

/-- Witness for the amended C1 at `inpW1`: with a single recorded
failure, the raised error is that first recorded failure. -/
theorem C1_raised_is_first_or_second_witness :
    (buildQueue inpW1.funcs inpW1.argsL inpW1.kwargsL).2 = none ∧
    (eW1 ∈ finW1.recLog ∧
      (finW1.recLog[0]? = some eW1 ∨ finW1.recLog[1]? = some eW1)) := by
  have htr : Trace (cfgOf inpW1) (initState inpW1) finW1 := by
    refine tstep (Step.sSpawn _ [] [] rfl rfl) ?_
    refine tstep (Step.sSpawnDone _ 1 rfl (by decide)) ?_
    refine tstep (Step.sLenOk _ rfl (by decide)) ?_
    refine tstep (Step.wCheckT _ [] [] rfl rfl) ?_
    refine tstep (Step.wDeqS _ [] [] tW1 [] rfl rfl) ?_
    refine tstep (Step.wExecFail _ [] [] tW1 eW1 rfl rfl) ?_
    refine tstep (Step.wDone _ [] [] tW1 rfl) ?_
    refine tstep (Step.wCheckF _ [] [] rfl rfl) ?_
    refine tstep (Step.sPollZ _ rfl rfl) ?_
    refine tstep (Step.sFinPop _ none eW1 [] rfl rfl) ?_
    refine tstep (Step.sJoinAll _ eW1 rfl ?_) tnil
    intro w hw
    exact List.mem_singleton.mp hw
  exact ⟨rfl,
    C1_raised_is_first_or_second inpW1 rfl (by decide) htr rfl⟩

end DbmpUtils


namespace DbmpUtils

/-- The spawn loop can always run to completion: from iteration
`l₁.length` with `rem` threads still unstarted, the supervisor reaches
iteration `l₁.length + rem` with all of them started, touching nothing
else. -/
theorem spawn_all (c : Cfg) :
    ∀ (rem : Nat) (s : SysState) (l₁ : List WState),
      s.workers = l₁ ++ List.replicate rem WState.unspawned →
      s.sup = SupState.spawn l₁.length →
      ∃ s', Trace c s s' ∧ s'.queue = s.queue ∧
        s'.unfinished = s.unfinished ∧ s'.excs = s.excs ∧
        s'.keepRunning = s.keepRunning ∧
        s'.sup = SupState.spawn (l₁.length + rem) ∧
        s'.workers = l₁ ++ List.replicate rem WState.atHead := by
  intro rem
  induction rem with
  | zero =>
      intro s l₁ hw hs
      exact ⟨s, tnil, rfl, rfl, rfl, rfl, hs, hw⟩
  | succ rem ih =>
      intro s l₁ hw hs
      have hw1 : s.workers =
          l₁ ++ WState.unspawned :: List.replicate rem WState.unspawned := by
        rw [hw]
        rfl
      have hstep : Step c s
          { s with
              workers :=
                l₁ ++ WState.atHead :: List.replicate rem WState.unspawned
              sup := SupState.spawn (l₁.length + 1) } :=
        Step.sSpawn s l₁ (List.replicate rem WState.unspawned) hs hw1
      obtain ⟨s', htr, hq, hu, he, hk, hsup', hw'⟩ :=
        ih { s with
              workers :=
                l₁ ++ WState.atHead :: List.replicate rem WState.unspawned,
              sup := SupState.spawn (l₁.length + 1) }
          (l₁ ++ [WState.atHead])
          (by
            show l₁ ++ WState.atHead :: List.replicate rem WState.unspawned =
              (l₁ ++ [WState.atHead]) ++ List.replicate rem WState.unspawned
            simp)
          (by
            show SupState.spawn (l₁.length + 1) =
              SupState.spawn (l₁ ++ [WState.atHead]).length
            simp)
      refine ⟨s', tstep hstep htr, hq, hu, he, hk, ?_, ?_⟩
      · rw [hsup']
        congr 1
        simp
        omega
      · rw [hw']
        simp [List.replicate_succ]

/-- A single worker at the head of the pool can drain the whole queue,
after which the supervisor terminates: from the polling phase with no
recorded failure, a terminal state is reachable.  Each dequeued task is
marked done on the success path and on the failure path alike, so the
outstanding count falls to zero unless a failure stops the pool — and in
both cases `run_threads` finishes. -/
theorem drain_terminates (c : Cfg) :
    ∀ (q : List TaskD) (s : SysState) (ws : List WState),
      s.queue = q → s.workers = WState.atHead :: ws →
      s.keepRunning = true → s.sup = SupState.poll → s.excs = [] →
      s.unfinished = q.length →
      ∃ s', Trace c s s' ∧ Terminal s' := by
  intro q
  induction q with
  | nil =>
      intro s ws hq hw hk hsup he hu
      exact ⟨_, tstep (Step.sPollZ s hsup hu)
        (tstep (Step.sFinEmpty _ none rfl he) tnil), none, rfl⟩
  | cons t q' ih =>
      intro s ws hq hw hk hsup he hu
      cases hrt : runTaskD t with
      | none =>
          have step4 : Trace c s
              { s with queue := q', workers := [] ++ WState.atHead :: ws,
                       execLog := s.execLog ++ [t],
                       unfinished := s.unfinished - 1 } :=
            tstep (Step.wCheckT s [] ws hw hk)
              (tstep (Step.wDeqS _ [] ws t q' rfl hq)
                (tstep (Step.wExecOk _ [] ws t rfl hrt)
                  (tstep (Step.wDone _ [] ws t rfl) tnil)))
          obtain ⟨s', htr', hterm⟩ :=
            ih { s with queue := q', workers := [] ++ WState.atHead :: ws,
                        execLog := s.execLog ++ [t],
                        unfinished := s.unfinished - 1 }
              ws rfl rfl hk hsup he
              (by
                show s.unfinished - 1 = q'.length
                rw [hu]
                rfl)
          exact ⟨s', Relation.ReflTransGen.trans step4 htr', hterm⟩
      | some e =>
          have step5 : Trace c s
              { s with queue := q', workers := [] ++ WState.exited :: ws,
                       execLog := s.execLog ++ [t],
                       excs := s.excs ++ [e], recLog := s.recLog ++ [e],
                       keepRunning := false,
                       unfinished := s.unfinished - 1 } :=
            tstep (Step.wCheckT s [] ws hw hk)
              (tstep (Step.wDeqS _ [] ws t q' rfl hq)
                (tstep (Step.wExecFail _ [] ws t e rfl hrt)
                  (tstep (Step.wDone _ [] ws t rfl)
                    (tstep (Step.wCheckF _ [] ws rfl rfl) tnil))))
          cases q' with
          | nil =>
              refine ⟨_, Relation.ReflTransGen.trans step5
                (tstep (Step.sPollZ _ hsup (by
                    show s.unfinished - 1 = 0
                    rw [hu]
                    rfl))
                  (tstep (Step.sFinPop _ none e [] rfl (by
                      show s.excs ++ [e] = e :: []
                      rw [he]
                      rfl))
                    (tstep (Step.sJoinTO _ e rfl) tnil))), ?_⟩
              exact ⟨some e, rfl⟩
          | cons t2 rest =>
              refine ⟨_, Relation.ReflTransGen.trans step5
                (tstep (Step.sPollP _ hsup (by
                    show s.unfinished - 1 ≠ 0
                    rw [hu]
                    simp))
                  (tstep (Step.sChkPop _ e [] rfl (by
                      show s.excs ++ [e] = e :: []
                      rw [he]
                      rfl))
                    (tstep (Step.sFinEmpty _ (some e) rfl rfl) tnil))), ?_⟩
              exact ⟨some e, rfl⟩

/-- C10 (claim theorem): for every invocation with at least one worker
(and with every task callable terminating, which the embedding of task
behaviour as a total function guarantees), `run_threads` can run to
completion: a terminated state is reachable from the initial one.  The
schedule constructed in the proof exercises exactly the claim's
argument: each dequeued task is marked done on the success path and the
failure path alike, so the supervisor's polling loop on
`unfinished_tasks` exits. -/
theorem C10_run_threads_terminates (inp : Input)
    (hmw : 1 ≤ inp.maxWorkers) :
    ∃ s, Trace (cfgOf inp) (initState inp) s ∧ Terminal s := by
  match hb : (buildQueue inp.funcs inp.argsL inp.kwargsL).2 with
  | some e =>
      refine ⟨_, tstep (Step.sFinEmpty (initState inp) (some e)
        (by rw [initState_err hb]) (by rw [initState_err hb])) tnil, ?_⟩
      exact ⟨some e, rfl⟩
  | none =>
      obtain ⟨s1, htr1, hq1, hu1, he1, hk1, hsup1, hw1⟩ :=
        spawn_all (cfgOf inp) inp.maxWorkers (initState inp) []
          (by rw [initState_ok hb]; rfl) (by rw [initState_ok hb]; rfl)
      have hstep2 : Step (cfgOf inp) s1 { s1 with sup := SupState.lenChk } :=
        Step.sSpawnDone s1 ([].length + inp.maxWorkers) hsup1
          (by
            rw [hw1]
            simp)
      have hexcs1 : s1.excs = [] := by
        rw [he1, initState_ok hb]
      by_cases hlb : lenBad (cfgOf inp)
      · refine ⟨_, Relation.ReflTransGen.trans htr1
          (tstep hstep2
            (tstep (Step.sLenBad _ rfl hlb)
              (tstep (Step.sFinEmpty _ (some lenErr) rfl hexcs1)
                tnil))), ?_⟩
        exact ⟨some lenErr, rfl⟩
      · obtain ⟨n, hn⟩ : ∃ n, inp.maxWorkers = n + 1 :=
          ⟨inp.maxWorkers - 1, by omega⟩
        obtain ⟨s', htr', hterm⟩ := drain_terminates (cfgOf inp)
          (buildQueue inp.funcs inp.argsL inp.kwargsL).1
          { s1 with sup := SupState.poll }
          (List.replicate n WState.atHead)
          (by
            show s1.queue = _
            rw [hq1, initState_ok hb])
          (by
            show s1.workers = _
            rw [hw1, hn]
            rfl)
          (by
            show s1.keepRunning = true
            rw [hk1, initState_ok hb])
          rfl
          hexcs1
          (by
            show s1.unfinished = _
            rw [hu1, initState_ok hb])
        exact ⟨s', Relation.ReflTransGen.trans htr1
          (tstep hstep2 (tstep (Step.sLenOk _ rfl hlb) htr')), hterm⟩

end DbmpUtils

namespace DbmpUtils

/-- The C10 witness invocation: one succeeding callable, one worker. -/
def inp10 : Input := ⟨[okFunc], [], [], 1⟩

/-- Witness for C10 at `inp10`: one worker suffices, and a terminated
state is reachable. -/
theorem C10_run_threads_terminates_witness :
    1 ≤ inp10.maxWorkers ∧
    ∃ s, Trace (cfgOf inp10) (initState inp10) s ∧ Terminal s :=
  ⟨by decide, C10_run_threads_terminates inp10 (by decide)⟩

end DbmpUtils

namespace DbmpUtils

namespace Locker

/-- A function wrapped by the `locker` decorator: its `__name__` (the
registry key) and, abstracting its body, the value it returns. -/
structure LFunc where
  lname : String
  retval : Nat

/-- Program counter of one in-flight call of the wrapper `_wrapper`.
`start`: about to evaluate `n not in LOCKS`.
`insertL`: observed the name missing, about to run `LOCKS[n] = Lock()`.
`lookup`: about to read `LOCKS[n]` for the `with` statement.
`acq lid`: read lock `lid`, about to acquire it.
`body lid`: holding `lid`, running `func(*args, **kwargs)`.
`finished r`: released the lock; the wrapper returned `r`. -/
inductive LCState where
  | start
  | insertL
  | lookup
  | acq (lid : Nat)
  | body (lid : Nat)
  | finished (r : Nat)
deriving DecidableEq

/-- Process state around `locker`: the module-level `LOCKS` dict (an
association of function name to lock identity), a source of fresh lock
identities, the set of currently held locks, and the in-flight calls. -/
structure LSys where
  locks : List (String × Nat)
  nextId : Nat
  held : List Nat
  callers : List (LFunc × LCState)

/-- Dict lookup `LOCKS[n]` / membership test `n in LOCKS`. -/
def lookupA : List (String × Nat) → String → Option Nat
  | [], _ => none
  | (k, v) :: r, n => if k = n then some v else lookupA r n

/-- Dict assignment `LOCKS[n] = v` (overwrites an existing entry). -/
def insertA : List (String × Nat) → String → Nat → List (String × Nat)
  | [], n, v => [(n, v)]
  | (k, w) :: r, n, v =>
    if k = n then (n, v) :: r else (k, w) :: insertA r n v

/-- One interleaving step of concurrent `locker`-wrapped calls. -/
inductive LStep : LSys → LSys → Prop where
  /-- `n not in LOCKS` is false: skip the creation branch. -/
  | checkHit (s : LSys) (c₁ c₂ : List (LFunc × LCState)) (f : LFunc)
      (lid : Nat) (hc : s.callers = c₁ ++ (f, .start) :: c₂)
      (hl : lookupA s.locks f.lname = some lid) :
      LStep s { s with callers := c₁ ++ (f, .lookup) :: c₂ }
  /-- `n not in LOCKS` is true: enter the creation branch. -/
  | checkMiss (s : LSys) (c₁ c₂ : List (LFunc × LCState)) (f : LFunc)
      (hc : s.callers = c₁ ++ (f, .start) :: c₂)
      (hl : lookupA s.locks f.lname = none) :
      LStep s { s with callers := c₁ ++ (f, .insertL) :: c₂ }
  /-- `LOCKS[n] = threading.Lock()`: store a fresh lock, overwriting any
  entry another call races in. -/
  | insertNew (s : LSys) (c₁ c₂ : List (LFunc × LCState)) (f : LFunc)
      (hc : s.callers = c₁ ++ (f, .insertL) :: c₂) :
      LStep s { s with locks := insertA s.locks f.lname s.nextId,
                       nextId := s.nextId + 1,
                       callers := c₁ ++ (f, .lookup) :: c₂ }
  /-- The `with LOCKS[n]` statement reads the current registry entry. -/
  | readLock (s : LSys) (c₁ c₂ : List (LFunc × LCState)) (f : LFunc)
      (lid : Nat) (hc : s.callers = c₁ ++ (f, .lookup) :: c₂)
      (hl : lookupA s.locks f.lname = some lid) :
      LStep s { s with callers := c₁ ++ (f, .acq lid) :: c₂ }
  /-- Acquiring the read lock (blocks while held). -/
  | acquire (s : LSys) (c₁ c₂ : List (LFunc × LCState)) (f : LFunc)
      (lid : Nat) (hc : s.callers = c₁ ++ (f, .acq lid) :: c₂)
      (hh : lid ∉ s.held) :
      LStep s { s with held := lid :: s.held,
                       callers := c₁ ++ (f, .body lid) :: c₂ }
  /-- `return func(*args, **kwargs)` and release on `with`-exit. -/
  | retRelease (s : LSys) (c₁ c₂ : List (LFunc × LCState)) (f : LFunc)
      (lid : Nat) (hc : s.callers = c₁ ++ (f, .body lid) :: c₂) :
      LStep s { s with held := s.held.erase lid,
                       callers := c₁ ++ (f, .finished f.retval) :: c₂ }

/-- Zero or more interleaving steps. -/
def LTrace : LSys → LSys → Prop := Relation.ReflTransGen LStep

/-- Whether a call currently runs its body holding lock `lid0`. -/
def isBodyAt (lid0 : Nat) : LFunc × LCState → Bool
  | (_, .body l) => l == lid0
  | _ => false

/-- Per-call restrictions for calls of the protected name `n` whose
registry entry `lid0` already exists: they never enter the creation
branch, and any lock they acquire or hold is `lid0`. -/
def cOk (n : String) (lid0 : Nat) : LFunc × LCState → Prop
  | (f, st) => f.lname = n →
      st ≠ .insertL ∧ ∀ l, (st = .acq l ∨ st = .body l) → l = lid0

/-- Overwriting another key leaves a lookup unchanged. -/
theorem lookupA_insertA_ne {l : List (String × Nat)} {n n' : String}
    {v : Nat} (h : n' ≠ n) : lookupA (insertA l n' v) n = lookupA l n := by
  induction l with
  | nil => simp [insertA, lookupA, h]
  | cons kv r ih =>
      obtain ⟨k, w⟩ := kv
      by_cases hk : k = n'
      · subst hk
        simp [insertA, lookupA, h]
      · simp [insertA, lookupA, hk]
        by_cases hkn : k = n
        · simp [hkn, lookupA]
        · simp [hkn, lookupA, ih]

/-- Every entry after an assignment is an old entry or the new pair. -/
theorem mem_insertA {l : List (String × Nat)} {n' : String} {v' : Nat}
    {k : String} {v : Nat} (h : (k, v) ∈ insertA l n' v') :
    (k, v) ∈ l ∨ (k = n' ∧ v = v') := by
  induction l with
  | nil =>
      simp [insertA] at h
      exact Or.inr h
  | cons kv r ih =>
      obtain ⟨k0, w0⟩ := kv
      by_cases hk : k0 = n'
      · subst hk
        simp [insertA] at h
        rcases h with ⟨h1, h2⟩ | h1
        · exact Or.inr ⟨h1, h2⟩
        · exact Or.inl (List.mem_cons_of_mem _ h1)
      · rw [insertA, if_neg hk] at h
        rcases List.mem_cons.mp h with h1 | h1
        · exact Or.inl (List.mem_cons.mpr (Or.inl h1))
        · rcases ih h1 with h2 | h2
          · exact Or.inl (List.mem_cons_of_mem _ h2)
          · exact Or.inr h2

/-- Invariant of the registry and the lock `lid0` protecting name `n`,
relative to a freshness bound on lock identities. -/
structure LInv (n : String) (lid0 : Nat) (bound : Nat) (s : LSys) :
    Prop where
  lk : lookupA s.locks n = some lid0
  fresh : bound ≤ s.nextId
  owner : ∀ k v, (k, v) ∈ s.locks → v = lid0 → k = n
  callerOk : ∀ f st, (f, st) ∈ s.callers → cOk n lid0 (f, st)
  heldct : s.held.count lid0 ≤ 1
  mutex : s.callers.countP (isBodyAt lid0) ≤ 1
  heldiff : lid0 ∈ s.held ↔ s.callers.countP (isBodyAt lid0) = 1
  retOk : ∀ f r, (f, LCState.finished r) ∈ s.callers → r = f.retval

end Locker

end DbmpUtils

namespace DbmpUtils

namespace Locker

/-- A member of a list with one distinguished position is the
distinguished element or a member regardless of what sits there. -/
theorem mem_replace {α : Type} (x : α) {c₁ c₂ : List α} {y a : α}
    (h : a ∈ c₁ ++ y :: c₂) : a = y ∨ a ∈ c₁ ++ x :: c₂ := by
  rcases List.mem_append.mp h with h1 | h1
  · exact Or.inr (List.mem_append_left _ h1)
  · rcases List.mem_cons.mp h1 with h1 | h1
    · exact Or.inl h1
    · exact Or.inr (List.mem_append_right _ (List.mem_cons_of_mem _ h1))

/-- The distinguished element is a member. -/
theorem self_mem {α : Type} (c₁ c₂ : List α) (x : α) : x ∈ c₁ ++ x :: c₂ :=
  List.mem_append_right _ (List.mem_cons_self _ _)

/-- Replacing the distinguished call with one of equal body-status keeps
the body count. -/
theorem countP_replace (lid0 : Nat) (c₁ c₂ : List (LFunc × LCState))
    (x y : LFunc × LCState) (hx : isBodyAt lid0 y = isBodyAt lid0 x) :
    (c₁ ++ y :: c₂).countP (isBodyAt lid0) =
      (c₁ ++ x :: c₂).countP (isBodyAt lid0) := by
  simp [List.countP_append, List.countP_cons, hx]

/-- Body count across a decomposition. -/
theorem countP_split (lid0 : Nat) (c₁ c₂ : List (LFunc × LCState))
    (x : LFunc × LCState) :
    (c₁ ++ x :: c₂).countP (isBodyAt lid0) =
      c₁.countP (isBodyAt lid0) + c₂.countP (isBodyAt lid0) +
        (if isBodyAt lid0 x then 1 else 0) := by
  cases hx : isBodyAt lid0 x
  · simp [List.countP_append, List.countP_cons, hx]
  · simp [List.countP_append, List.countP_cons, hx]
    omega

/-- A call state with no lock attached satisfies `cOk`. -/
theorem cOk_lookup {n : String} {lid0 : Nat} (f : LFunc) :
    cOk n lid0 (f, LCState.lookup) := by
  intro _
  refine ⟨fun hq => (nomatch hq), ?_⟩
  intro l hl
  rcases hl with h1 | h1 <;> cases h1

/-- A finished call satisfies `cOk`. -/
theorem cOk_finished {n : String} {lid0 : Nat} (f : LFunc) (r : Nat) :
    cOk n lid0 (f, LCState.finished r) := by
  intro _
  refine ⟨fun hq => (nomatch hq), ?_⟩
  intro l hl
  rcases hl with h1 | h1 <;> cases h1

/-- The registry/lock invariant is preserved by every step. -/
theorem LInv_step {n : String} {lid0 bound : Nat} (hlt : lid0 < bound)
    {s s' : LSys} (h : LInv n lid0 bound s) (hst : LStep s s') :
    LInv n lid0 bound s' := by
  obtain ⟨hlk, hfresh, howner, hcok, hct, hmx, hiff, hret⟩ := h
  cases hst with
  | checkHit c₁ c₂ f lid hc hl =>
      rw [hc] at hcok hmx hiff hret
      have hcnt := countP_replace lid0 c₁ c₂ (f, LCState.start)
        (f, LCState.lookup) rfl
      refine ⟨hlk, hfresh, howner, ?_, hct, ?_, ?_, ?_⟩
      · intro g st hg
        rcases mem_replace (f, LCState.start) hg with h1 | h1
        · rw [h1]
          exact cOk_lookup f
        · exact hcok g st h1
      · rw [hcnt]
        exact hmx
      · rw [hcnt]
        exact hiff
      · intro g r hg
        rcases mem_replace (f, LCState.start) hg with h1 | h1
        · cases h1
        · exact hret g r h1
  | checkMiss c₁ c₂ f hc hl =>
      rw [hc] at hcok hmx hiff hret
      have hcnt := countP_replace lid0 c₁ c₂ (f, LCState.start)
        (f, LCState.insertL) rfl
      refine ⟨hlk, hfresh, howner, ?_, hct, ?_, ?_, ?_⟩
      · intro g st hg
        rcases mem_replace (f, LCState.start) hg with h1 | h1
        · rw [h1]
          intro hname
          rw [hname] at hl
          rw [hl] at hlk
          cases hlk
        · exact hcok g st h1
      · rw [hcnt]
        exact hmx
      · rw [hcnt]
        exact hiff
      · intro g r hg
        rcases mem_replace (f, LCState.start) hg with h1 | h1
        · cases h1
        · exact hret g r h1
  | insertNew c₁ c₂ f hc =>
      rw [hc] at hcok hmx hiff hret
      have hfn : f.lname ≠ n := by
        intro hname
        exact ((hcok f LCState.insertL
          (self_mem c₁ c₂ (f, LCState.insertL))) hname).1 rfl
      have hcnt := countP_replace lid0 c₁ c₂ (f, LCState.insertL)
        (f, LCState.lookup) rfl
      refine ⟨?_, ?_, ?_, ?_, hct, ?_, ?_, ?_⟩
      · rw [lookupA_insertA_ne hfn]
        exact hlk
      · exact Nat.le_succ_of_le hfresh
      · intro k v hm hv
        rcases mem_insertA hm with h1 | ⟨h1, h2⟩
        · exact howner k v h1 hv
        · omega
      · intro g st hg
        rcases mem_replace (f, LCState.insertL) hg with h1 | h1
        · rw [h1]
          exact cOk_lookup f
        · exact hcok g st h1
      · rw [hcnt]
        exact hmx
      · rw [hcnt]
        exact hiff
      · intro g r hg
        rcases mem_replace (f, LCState.insertL) hg with h1 | h1
        · cases h1
        · exact hret g r h1
  | readLock c₁ c₂ f lid hc hl =>
      rw [hc] at hcok hmx hiff hret
      have hcnt := countP_replace lid0 c₁ c₂ (f, LCState.lookup)
        (f, LCState.acq lid) rfl
      refine ⟨hlk, hfresh, howner, ?_, hct, ?_, ?_, ?_⟩
      · intro g st hg
        rcases mem_replace (f, LCState.lookup) hg with h1 | h1
        · rw [h1]
          intro hname
          rw [hname] at hl
          have hle : lid = lid0 := by
            rw [hlk] at hl
            injection hl with h2
            exact h2.symm
          refine ⟨fun hq => (nomatch hq), ?_⟩
          intro l hl2
          rcases hl2 with h2 | h2
          · injection h2 with h3
            rw [← h3]
            exact hle
          · cases h2
        · exact hcok g st h1
      · rw [hcnt]
        exact hmx
      · rw [hcnt]
        exact hiff
      · intro g r hg
        rcases mem_replace (f, LCState.lookup) hg with h1 | h1
        · cases h1
        · exact hret g r h1
  | acquire c₁ c₂ f lid hc hh =>
      rw [hc] at hcok hmx hiff hret
      by_cases hli : lid = lid0
      · subst hli
        have hcnt0 : (c₁ ++ (f, LCState.acq lid) :: c₂).countP
            (isBodyAt lid) = c₁.countP (isBodyAt lid) +
              c₂.countP (isBodyAt lid) := by
          rw [countP_split]
          simp [isBodyAt]
        have hcnt1 : (c₁ ++ (f, LCState.body lid) :: c₂).countP
            (isBodyAt lid) = c₁.countP (isBodyAt lid) +
              c₂.countP (isBodyAt lid) + 1 := by
          rw [countP_split]
          simp [isBodyAt]
        have hz : c₁.countP (isBodyAt lid) + c₂.countP (isBodyAt lid)
            = 0 := by
          have hne1 : (c₁ ++ (f, LCState.acq lid) :: c₂).countP
              (isBodyAt lid) ≠ 1 := by
            intro h1
            exact hh (hiff.mpr h1)
          rw [hcnt0] at hne1 hmx
          omega
        refine ⟨hlk, hfresh, howner, ?_, ?_, ?_, ?_, ?_⟩
        · intro g st hg
          rcases mem_replace (f, LCState.acq lid) hg with h1 | h1
          · rw [h1]
            intro hname
            refine ⟨fun hq => (nomatch hq), ?_⟩
            intro l hl2
            rcases hl2 with h2 | h2
            · cases h2
            · injection h2 with h3
              exact h3.symm
          · exact hcok g st h1
        · show (lid :: s.held).count lid ≤ 1
          have hh0 : s.held.count lid = 0 := List.count_eq_zero.mpr hh
          rw [List.count_cons_self]
          omega
        · rw [hcnt1, hz]
        · rw [hcnt1, hz]
          simp
        · intro g r hg
          rcases mem_replace (f, LCState.acq lid) hg with h1 | h1
          · cases h1
          · exact hret g r h1
      · have hcnt := countP_replace lid0 c₁ c₂ (f, LCState.acq lid)
          (f, LCState.body lid) (by simp [isBodyAt, hli])
        have hmem : (lid0 ∈ lid :: s.held) ↔ lid0 ∈ s.held := by
          constructor
          · intro h1
            rcases List.mem_cons.mp h1 with h2 | h2
            · exact absurd h2.symm hli
            · exact h2
          · exact fun h1 => List.mem_cons_of_mem _ h1
        refine ⟨hlk, hfresh, howner, ?_, ?_, ?_, ?_, ?_⟩
        · intro g st hg
          rcases mem_replace (f, LCState.acq lid) hg with h1 | h1
          · rw [h1]
            intro hname
            have hfl := (hcok f (LCState.acq lid)
              (self_mem c₁ c₂ (f, LCState.acq lid))) hname
            exact absurd (hfl.2 lid (Or.inl rfl)) hli
          · exact hcok g st h1
        · show (lid :: s.held).count lid0 ≤ 1
          rw [List.count_cons_of_ne (fun h1 => hli h1.symm)]
          exact hct
        · rw [hcnt]
          exact hmx
        · rw [hcnt]
          exact hmem.trans hiff
        · intro g r hg
          rcases mem_replace (f, LCState.acq lid) hg with h1 | h1
          · cases h1
          · exact hret g r h1
  | retRelease c₁ c₂ f lid hc =>
      rw [hc] at hcok hmx hiff hret
      by_cases hli : lid = lid0
      · subst hli
        have hcnt0 : (c₁ ++ (f, LCState.body lid) :: c₂).countP
            (isBodyAt lid) = c₁.countP (isBodyAt lid) +
              c₂.countP (isBodyAt lid) + 1 := by
          rw [countP_split]
          simp [isBodyAt]
        have hcnt1 : (c₁ ++ (f, LCState.finished f.retval) :: c₂).countP
            (isBodyAt lid) = c₁.countP (isBodyAt lid) +
              c₂.countP (isBodyAt lid) := by
          rw [countP_split]
          simp [isBodyAt]
        have hz : c₁.countP (isBodyAt lid) + c₂.countP (isBodyAt lid)
            = 0 := by
          rw [hcnt0] at hmx
          omega
        have hmem : lid ∈ s.held := hiff.mpr (by rw [hcnt0, hz])
        have hcount1 : s.held.count lid = 1 := by
          have := List.count_pos_iff.mpr hmem
          omega
        have hercount : (s.held.erase lid).count lid = 0 := by
          rw [List.count_erase_self]
          omega
        have hernotmem : lid ∉ s.held.erase lid :=
          List.count_eq_zero.mp hercount
        refine ⟨hlk, hfresh, howner, ?_, ?_, ?_, ?_, ?_⟩
        · intro g st hg
          rcases mem_replace (f, LCState.body lid) hg with h1 | h1
          · rw [h1]
            exact cOk_finished f f.retval
          · exact hcok g st h1
        · show (s.held.erase lid).count lid ≤ 1
          omega
        · rw [hcnt1, hz]
          omega
        · rw [hcnt1, hz]
          constructor
          · intro h1
            exact absurd h1 hernotmem
          · intro h1
            cases h1
        · intro g r hg
          rcases mem_replace (f, LCState.body lid) hg with h1 | h1
          · injection h1 with h2 h3
            rw [h2]
            injection h3 with h4
          · exact hret g r h1
      · have hcnt := countP_replace lid0 c₁ c₂ (f, LCState.body lid)
          (f, LCState.finished f.retval) (by simp [isBodyAt, hli])
        have hmem : (lid0 ∈ s.held.erase lid) ↔ lid0 ∈ s.held :=
          List.mem_erase_of_ne (fun h1 => hli h1.symm)
        refine ⟨hlk, hfresh, howner, ?_, ?_, ?_, ?_, ?_⟩
        · intro g st hg
          rcases mem_replace (f, LCState.body lid) hg with h1 | h1
          · rw [h1]
            exact cOk_finished f f.retval
          · exact hcok g st h1
        · show (s.held.erase lid).count lid0 ≤ 1
          rw [List.count_erase_of_ne (fun h1 => hli h1.symm)]
          exact hct
        · rw [hcnt]
          exact hmx
        · rw [hcnt]
          exact hmem.trans hiff
        · intro g r hg
          rcases mem_replace (f, LCState.body lid) hg with h1 | h1
          · injection h1 with h2 h3
            rw [h2]
            injection h3 with h4
          · exact hret g r h1

end Locker

end DbmpUtils

namespace DbmpUtils

namespace Locker

/-- Prefix a step onto a locker trace. -/
theorem ltstep {a b d : LSys} (h1 : LStep a b) (h2 : LTrace b d) :
    LTrace a d :=
  Relation.ReflTransGen.head h1 h2

/-- The empty locker trace. -/
theorem ltnil {a : LSys} : LTrace a a :=
  Relation.ReflTransGen.refl

/-- First caller of the C9 counterexample. -/
def g1w : LFunc := ⟨"op", 1⟩

/-- Second caller of the C9 counterexample, wrapping a function of the
same name. -/
def g2w : LFunc := ⟨"op", 2⟩

/-- Initial state of the C9 counterexample: empty registry, two calls
for the same name about to begin. -/
def init9 : LSys := ⟨[], 0, [], [(g1w, .start), (g2w, .start)]⟩

/-- Final state of the C9 counterexample: two locks were created for the
one name (`nextId = 2`, the registry kept only the second), and both
calls are inside their bodies simultaneously, each holding a different
lock. -/
def fin9 : LSys := ⟨[("op", 1)], 2, [1, 0], [(g1w, .body 0), (g2w, .body 1)]⟩

end Locker

end DbmpUtils

namespace DbmpUtils

/-- C9 (counterexample): the check-then-insert in `locker` is not
atomic.  Two concurrent calls of functions sharing the name "op" both
observe the name missing, each creates its own lock (two locks ever
created for one name, `nextId = 2`, the second overwriting the first in
`LOCKS`), and both run their bodies simultaneously while holding
different locks.  This refutes both "for each function name at most one
lock is ever created" and "two concurrent calls of functions wrapped
under the same name never run their bodies simultaneously". -/
theorem C9_lock_creation_races :
    Locker.LTrace Locker.init9 Locker.fin9 ∧
    Locker.fin9.callers =
      [(Locker.g1w, Locker.LCState.body 0),
       (Locker.g2w, Locker.LCState.body 1)] ∧
    Locker.g1w.lname = Locker.g2w.lname ∧
    Locker.fin9.nextId = 2 := by
  refine ⟨?_, rfl, rfl, rfl⟩
  refine Locker.ltstep
    (Locker.LStep.checkMiss _ [] [(Locker.g2w, .start)] Locker.g1w rfl rfl)
    ?_
  refine Locker.ltstep
    (Locker.LStep.checkMiss _ [(Locker.g1w, .insertL)] [] Locker.g2w rfl
      rfl) ?_
  refine Locker.ltstep
    (Locker.LStep.insertNew _ [] [(Locker.g2w, .insertL)] Locker.g1w rfl)
    ?_
  refine Locker.ltstep
    (Locker.LStep.readLock _ [] [(Locker.g2w, .insertL)] Locker.g1w 0 rfl
      rfl) ?_
  refine Locker.ltstep
    (Locker.LStep.acquire _ [] [(Locker.g2w, .insertL)] Locker.g1w 0 rfl
      (by decide)) ?_
  refine Locker.ltstep
    (Locker.LStep.insertNew _ [(Locker.g1w, .body 0)] [] Locker.g2w rfl)
    ?_
  refine Locker.ltstep
    (Locker.LStep.readLock _ [(Locker.g1w, .body 0)] [] Locker.g2w 1 rfl
      rfl) ?_
  exact Locker.ltstep
    (Locker.LStep.acquire _ [(Locker.g1w, .body 0)] [] Locker.g2w 1 rfl
      (by decide)) Locker.ltnil

/-- C9 (amended theorem): once the registry already holds the (lazily
created) lock `lid0` for name `n` — and all lock identities in use are
older than the fresh-identity source — every later call for `n` reuses
exactly that registry entry (it never changes and no call for `n` ever
reaches the lock-creation branch), two concurrent calls for `n` never
run their bodies simultaneously, and every finished wrapper call
returned its wrapped function's return value.  (Per the counterexample,
none of this is guaranteed while two first calls for a name race the
creation itself.) -/
theorem C9_registered_lock_exclusive (n : String) (lid0 : Nat)
    (s0 : Locker.LSys)
    (hlk0 : Locker.lookupA s0.locks n = some lid0)
    (hfresh0 : lid0 < s0.nextId)
    (howner0 : ∀ k v, (k, v) ∈ s0.locks → v = lid0 → k = n)
    (hstart0 : ∀ f st, (f, st) ∈ s0.callers → st = Locker.LCState.start)
    (hheld0 : s0.held = []) {s : Locker.LSys}
    (htr : Locker.LTrace s0 s) :
    Locker.lookupA s.locks n = some lid0 ∧
    (∀ f st, (f, st) ∈ s.callers → f.lname = n →
      st ≠ Locker.LCState.insertL) ∧
    (¬ ∃ c₁ c₂ c₃ f g l l', s.callers =
        c₁ ++ (f, Locker.LCState.body l) :: c₂ ++
          (g, Locker.LCState.body l') :: c₃ ∧
        f.lname = n ∧ g.lname = n) ∧
    (∀ f r, (f, Locker.LCState.finished r) ∈ s.callers →
      r = f.retval) := by
  have hinv : Locker.LInv n lid0 s0.nextId s := by
    induction htr with
    | refl =>
        refine ⟨hlk0, Nat.le_refl _, howner0, ?_, ?_, ?_, ?_, ?_⟩
        · intro f st hm
          rw [hstart0 f st hm]
          intro _
          refine ⟨fun hq => (nomatch hq), ?_⟩
          intro l hl
          rcases hl with h1 | h1
          · cases h1
          · cases h1
        · rw [hheld0]
          simp
        · have h0 : s0.callers.countP (Locker.isBodyAt lid0) = 0 := by
            rw [List.countP_eq_zero]
            intro a ha
            obtain ⟨f, st⟩ := a
            rw [hstart0 f st ha]
            simp [Locker.isBodyAt]
          omega
        · rw [hheld0]
          have h0 : s0.callers.countP (Locker.isBodyAt lid0) = 0 := by
            rw [List.countP_eq_zero]
            intro a ha
            obtain ⟨f, st⟩ := a
            rw [hstart0 f st ha]
            simp [Locker.isBodyAt]
          rw [h0]
          simp
        · intro f r hm
          have := hstart0 f (Locker.LCState.finished r) hm
          cases this
    | tail h1 h2 ih => exact Locker.LInv_step hfresh0 ih h2
  refine ⟨hinv.lk, ?_, ?_, hinv.retOk⟩
  · intro f st hm hname
    exact ((hinv.callerOk f st hm) hname).1
  · rintro ⟨c₁, c₂, c₃, f, g, l, l', hc, hf, hg⟩
    have hmf : (f, Locker.LCState.body l) ∈ s.callers := by
      rw [hc]
      exact List.mem_append_left _ (Locker.self_mem _ _ _)
    have hmg : (g, Locker.LCState.body l') ∈ s.callers := by
      rw [hc]
      exact List.mem_append_right _ (List.mem_cons_self _ _)
    have hlf : l = lid0 :=
      ((hinv.callerOk f _ hmf) hf).2 l (Or.inr rfl)
    have hlg : l' = lid0 :=
      ((hinv.callerOk g _ hmg) hg).2 l' (Or.inr rfl)
    have hmx := hinv.mutex
    rw [hc] at hmx
    rw [Locker.countP_split] at hmx
    rw [Locker.countP_split] at hmx
    rw [hlf, hlg] at hmx
    simp [Locker.isBodyAt] at hmx

/-- Initial state of the C9-amended witness: the lock for "op" already
registered, two calls about to begin. -/
def s0w : Locker.LSys :=
  ⟨[("op", 5)], 6, [], [(Locker.g1w, .start), (Locker.g2w, .start)]⟩

/-- Witness for the amended C9 at `s0w`: its hypotheses hold; the
registry entry is intact and no two calls for "op" run their bodies
simultaneously. -/
theorem C9_registered_lock_exclusive_witness :
    Locker.lookupA s0w.locks "op" = some 5 ∧
    (¬ ∃ c₁ c₂ c₃ f g l l', s0w.callers =
        c₁ ++ (f, Locker.LCState.body l) :: c₂ ++
          (g, Locker.LCState.body l') :: c₃ ∧
        f.lname = "op" ∧ g.lname = "op") := by
  have h := C9_registered_lock_exclusive "op" 5 s0w rfl (by decide)
    (by
      intro k v hm hv
      rcases List.mem_singleton.mp hm with h1
      injection h1 with h2 h3)
    (by
      intro f st hm
      rcases List.mem_cons.mp hm with h1 | h1
      · injection h1 with h2 h3
      · rcases List.mem_singleton.mp h1 with h2
        injection h2 with h3 h4)
    rfl Relation.ReflTransGen.refl
  exact ⟨h.1, h.2.2.1⟩

end DbmpUtils
